import Mathlib

/-!
Verification development for the pyFG commit/rollback engine
(`src/pyFG/fortios.py`). The Python code is shallowly embedded: the mutable
`FortiOS` object becomes an explicit state record, device I/O becomes an
oracle function from the index of the interaction to the reply, exceptions
become `Except`, and an instrumentation trace records device interactions
and rollback entry so that protocol-level properties can be stated.

The repository module `pyFG/forticonfig.py` (the `FortiConfig` tree,
diff and parse engine) is not present under `src/`; per the specification
it is the external **ConfigTree** collaborator, and it is modelled from
the spec below.  The name `exceptions` used by both `raise` statements of
`fortios.py` is never imported there, so those statements actually raise
`NameError`; the embedding models this faithfully (see `PyExc`).
-/

/-! ## String helpers -/

/-- `containsSubstr hay pat` holds when `pat` occurs somewhere inside `hay`,
the semantics of the Python expressions `'global' in self.vdom` and of
`re.findall('Command fail', output)` being non-empty. -/
def containsSubstr (hay pat : String) : Bool :=
  (List.range (hay.toList.length + 1)).any
    (fun i => pat.toList.isPrefixOf (hay.toList.drop i))

/-- Python word characters restricted to ASCII: `[a-zA-Z0-9_]`.  The `\W`
class in `(-?[0-9]\d*):\W+(.*)` is the complement of this set (the device
log and the spec examples only use ASCII). -/
def isWordChar (c : Char) : Bool := c.isAlphanum || c = '_'

/-- Numeric value of a digit string, the value Python's `int` assigns to the
digits captured by the regex group `[0-9]\d*`. -/
def digitsVal (ds : List Char) : Int :=
  ((ds.foldl (fun n c => 10 * n + (c.toNat - 48)) 0 : Nat) : Int)

/-! ## Log parser (`FortiOS._parse_batch_lastlog`) -/

/-- One line of `execute batch lastlog` output matched against the anchored
regex `(-?[0-9]\d*):\W+(.*)` of `FortiOS._parse_batch_lastlog`
(`re.match`, so anchored at the start of the line).  On success the status
code is returned as the integer `int` would produce from group 1 (the
source keeps the numeral string and applies `int` at every use site) and
the command is group 2: everything after the maximal run of non-word
characters following the colon.  `parseCore neg cs1` handles the part after
the optional minus sign (`neg` records whether one was consumed); `parseLine`
is the anchored match on the whole line. -/
def parseCore (neg : Bool) (cs1 : List Char) : Option (Int × String) :=
  let ds := cs1.takeWhile Char.isDigit
  if ds.isEmpty then
    none
  else
    match cs1.dropWhile Char.isDigit with
    | c1 :: rest2 =>
      if c1 = ':' then
        let ws := rest2.takeWhile (fun c => !(isWordChar c))
        let cmd := rest2.dropWhile (fun c => !(isWordChar c))
        if ws.isEmpty then none
        else some ((if neg then -(digitsVal ds) else digitsVal ds), String.mk cmd)
      else none
    | [] => none

def parseLine (line : String) : Option (Int × String) :=
  match line.toList with
  | [] => none
  | c :: tl => if c = '-' then parseCore true tl else parseCore false (c :: tl)

/-- `FortiOS._parse_batch_lastlog`: keep, in input order, the `(code, cmd)`
pairs of the lines matching the regex whose status code is negative. -/
def FortiOS_parse_batch_lastlog (last_log : List String) : List (Int × String) :=
  last_log.filterMap (fun line =>
    match parseLine line with
    | some p => if p.1 < 0 then some p else none
    | none => none)

/-- Declarative reading of the line grammar that the implemented regex
`(-?[0-9]\d*):\W+(.*)` actually recognises: an optional minus sign, a
non-empty digit run, a colon, a non-empty run of NON-WORD characters (not
merely whitespace), then the rest of the line as the command. -/
def GrammarMatch (line : String) (code : Int) (cmd : String) : Prop :=
  ∃ (neg : Bool) (ds ws rest : List Char),
    ds ≠ [] ∧ (∀ c ∈ ds, c.isDigit = true) ∧
    ws ≠ [] ∧ (∀ c ∈ ws, isWordChar c = false) ∧
    (rest = [] ∨ ∃ c cs, rest = c :: cs ∧ isWordChar c = true) ∧
    line.toList = (if neg then ['-'] else []) ++ ds ++ [':'] ++ ws ++ rest ∧
    code = (if neg then -(digitsVal ds) else digitsVal ds) ∧
    cmd = String.mk rest

/-- The grammar the claim attributes to the parser: optional minus, digits,
colon, WHITESPACE, then the rest of the line. -/
def specLineMatchesWS (line : String) : Bool :=
  let cs := line.toList
  let neg : Bool := match cs with
    | '-' :: _ => true
    | _ => false
  let cs1 := if neg then cs.drop 1 else cs
  let ds := cs1.takeWhile Char.isDigit
  let rest1 := cs1.dropWhile Char.isDigit
  if ds.isEmpty then
    false
  else
    match rest1 with
    | ':' :: rest2 => !(rest2.takeWhile Char.isWhitespace).isEmpty
    | _ => false

/-! ## Configuration model

`pyFG/forticonfig.py` is not under `src/`; the spec treats it as the opaque
external **ConfigTree** with operations `parse`, `diff`, `render`,
`trackedPaths`, held inside a **ConfigState** carrying a name, a scope and
the set of loaded paths.  The commit core never inspects the tree, so the
tree is embedded as the raw list of device output lines and the diff
operation is an arbitrary parameter `DiffFn` of every theorem. -/

/-- Modelled from the spec: the `FortiConfig` object of the missing module
`pyFG/forticonfig.py` — spec §3 `ConfigState`: name, optional vdom scope,
opaque tree, and the paths it was populated from. -/
structure FortiConfig where
  name : String
  vdom : Option String
  tree : List String
  paths : List String
deriving Repr, DecidableEq

/-- Modelled from the spec: a freshly constructed `FortiConfig(name, vdom)`
holds no configuration and no recorded paths. -/
def FortiConfig.mkEmpty (name : String) (vdom : Option String) : FortiConfig :=
  ⟨name, vdom, [], []⟩

/-- Modelled from the spec: `ConfigTree.parse` — the state's tree is
replaced wholesale by the parse of the captured output (spec §3: `live`
"must only ever be replaced wholesale"). -/
def FortiConfig.parse_config_output (cfg : FortiConfig) (out : List String) : FortiConfig :=
  { cfg with tree := out }

/-- Modelled from the spec: `recordPath` — `loadedPaths` is a set, so a
path already present is not duplicated. -/
def FortiConfig.add_path (cfg : FortiConfig) (path : String) : FortiConfig :=
  if path ∈ cfg.paths then cfg else { cfg with paths := cfg.paths ++ [path] }

/-- Modelled from the spec: `pathsOf` / `FortiConfig.get_paths`. -/
def FortiConfig.get_paths (cfg : FortiConfig) : List String := cfg.paths

/-- Modelled from the spec: `FortiConfig.set_name`, used by
`FortiOS._reload_config` to rename the saved running config to `original`. -/
def FortiConfig.set_name (cfg : FortiConfig) (n : String) : FortiConfig :=
  { cfg with name := n }

/-- The opaque diff operation `ConfigTree.diff(other) -> text` of the spec:
from a source tree and a target tree, the command text reaching the target.
Every theorem quantifies over it. -/
def DiffFn : Type := List String → List String → String

/-- The mutable state of a `FortiOS` object: its vdom and its three
configuration states (`original_config` starts as `None`). -/
structure FortiOSState where
  vdom : Option String
  original_config : Option FortiConfig
  running_config : FortiConfig
  candidate_config : FortiConfig
deriving Repr, DecidableEq

/-- `FortiOS.compare_config` in its `text=False` form, the only form the
commit/rollback machinery uses: diff the running config against `other`,
defaulting `other` to the candidate config.  (The `text=True` branch
renders a `difflib` textual diff and is used by no claim.) -/
def compare_config (diffFn : DiffFn) (st : FortiOSState) (other : Option FortiConfig) : String :=
  let o := match other with
    | none => st.candidate_config
    | some c => c
  diffFn st.running_config.tree o.tree

/-! ## Device channel and instrumentation trace -/

/-- Instrumentation events: `exec` records one `execute_command` round trip
(the actual device interaction), `batch` marks the start of one batch
execution inside `_commit._execute`, and `rollbackStart` marks entry into
`FortiOS.rollback`.  The latter two are ghost markers used to state
protocol properties. -/
inductive Event where
  | exec (cmd : String) (reply : List String)
  | batch (cmd : String)
  | rollbackStart
deriving Repr, DecidableEq

/-- The world outside the `FortiOS` object: the device oracle (reply lines
of the `n`-th command sent in the session), the number of commands sent so
far, and the instrumentation trace. -/
structure World where
  dev : Nat → String → List String
  step : Nat
  trace : List Event

/-- Fresh session world around a device oracle. -/
def mkWorld (dev : Nat → String → List String) : World := ⟨dev, 0, []⟩

/-- Python exceptions the embedded code can actually raise.  Both `raise`
statements of `fortios.py` go through the name `exceptions`
(`exceptions.CommandExecutionException` at line 108,
`exceptions.FailedCommit` at line 267), but the module never imports
`exceptions` — its imports are exactly `FortiConfig`, `ConnectHandler`,
`re`, `os`, `io`, `Differ` and `logging` — so evaluating the raise
expression itself raises `NameError: name 'exceptions' is not defined`,
and no other exception type (and no failure payload) ever escapes.  The
constructor therefore carries only the unresolved name, as for the
`host` bug of `__init__`. -/
inductive PyExc where
  | nameError (n : String)
deriving Repr, DecidableEq

/-- `'Command fail'` detection of `FortiOS.execute_command`.  The pattern
contains no newline, so matching the joined reply equals matching some
reply line. -/
def containsCommandFail (lines : List String) : Bool :=
  lines.any (fun l => containsSubstr l "Command fail")

/-- `FortiOS.execute_command`: send `command`, record the round trip; when
the reply contains `Command fail` the source executes
`raise exceptions.CommandExecutionException(msg)`, but `exceptions` is an
unbound name in `fortios.py`, so what is actually raised is a `NameError`
for `exceptions`; otherwise return the reply split into lines. -/
def execute_command (w : World) (command : String) : World × Except PyExc (List String) :=
  let output := w.dev w.step command
  let w' : World :=
    { w with step := w.step + 1, trace := w.trace ++ [Event.exec command output] }
  if containsCommandFail output then
    (w', Except.error (PyExc.nameError "exceptions"))
  else
    (w', Except.ok output)

/-! ## Config loading (`FortiOS.load_config`, `FortiOS._reload_config`) -/

/-- The read command `FortiOS.load_config` builds from the scope and the
path: bare `show`, or wrapped in `conf global` / `conf vdom\nedit <vdom>`. -/
def showCommand (vdom : Option String) (path : String) : String :=
  match vdom with
  | none => "show " ++ path
  | some v =>
    if v = "global" then "conf global\nshow " ++ path ++ "\nend"
    else "conf vdom\nedit " ++ v ++ "\nshow " ++ path ++ "\nend"

/-- `FortiOS.load_config(path, in_candidate, empty_candidate, config_text)`:
fetch the text from the device unless supplied, then merge it into the
running config (when `in_candidate` is false) and into the candidate config
(when `empty_candidate` is false or `in_candidate` is true), recording the
path on each updated state. -/
def load_config (st : FortiOSState) (w : World) (path : String)
    (in_candidate empty_candidate : Bool) (config_text : Option (List String)) :
    FortiOSState × World × Except PyExc Unit :=
  let fetched : World × Except PyExc (List String) :=
    match config_text with
    | some t => (w, Except.ok t)
    | none => execute_command w (showCommand st.vdom path)
  match fetched with
  | (w, Except.error e) => (st, w, Except.error e)
  | (w, Except.ok ct) =>
    let st := if !in_candidate then
        { st with running_config := (st.running_config.parse_config_output ct).add_path path }
      else st
    let st := if !empty_candidate || in_candidate then
        { st with candidate_config := (st.candidate_config.parse_config_output ct).add_path path }
      else st
    (st, w, Except.ok ())

/-- The `for path in paths: self.load_config(path, empty_candidate=True)`
loop of `FortiOS._reload_config`; an exception aborts the remaining
iterations and propagates. -/
def loadPaths (st : FortiOSState) (w : World) : List String → FortiOSState × World × Except PyExc Unit
  | [] => (st, w, Except.ok ())
  | p :: rest =>
    match load_config st w p false true none with
    | (st, w, Except.ok _) => loadPaths st w rest
    | (st, w, Except.error e) => (st, w, Except.error e)

/-- `FortiOS._reload_config(reload_original_config)`: optionally save the
running config as the original (renamed) config, then rebuild the running
config from the device by re-loading each recorded path.  (In Python the
`original_config` alias is renamed in place and `running_config` is then
rebound to a fresh object; the value-level effect is the renamed copy kept
here.) -/
def reload_config (st : FortiOSState) (w : World) (reload_original_config : Bool) :
    FortiOSState × World × Except PyExc Unit :=
  let st := if reload_original_config then
      { st with original_config := some (st.running_config.set_name "original") }
    else st
  let paths := st.running_config.get_paths
  let st := { st with running_config := FortiConfig.mkEmpty "running" st.vdom }
  loadPaths st w paths

/-! ## Batch protocol (`FortiOS._commit` and its inner `_execute`) -/

/-- The framed batch script of `_commit._execute`.  Note the source decides
the scope with `not 'global' in self.vdom`, a SUBSTRING test: any vdom name
containing `global` takes the `conf global` framing without the
`conf vdom\n  edit` block. -/
def buildBatchCmd (vdom : Option String) (config_text : String) : String :=
  match vdom with
  | none => "execute batch start\n" ++ config_text ++ "\nexecute batch end\n"
  | some v =>
    if !(containsSubstr v "global") then
      "conf global\n    execute batch start\n" ++ "conf vdom\n  edit " ++ v ++ "\n"
        ++ config_text ++ "\nexecute batch end\n"
    else
      "conf global\n    execute batch start\n" ++ config_text ++ "\nexecute batch end\n"

/-- The scope prefix `pre` of `_commit._execute`: empty without a vdom,
`conf global\n    ` with one. -/
def scopePre (vdom : Option String) : String :=
  match vdom with
  | none => ""
  | some _ => "conf global\n    "

/-- The result-retrieval command `{pre}execute batch lastlog`. -/
def lastlogCmd (vdom : Option String) : String := scopePre vdom ++ "execute batch lastlog"

/-- `_commit._execute(config_text)`: default the text to
`compare_config()`, send the framed batch script, query the last log with
the same scope prefix, and parse it.  A ghost `batch` event marks the
execution. -/
def commitExecute (diffFn : DiffFn) (st : FortiOSState) (w : World)
    (config_text : Option String) : World × Except PyExc (List (Int × String)) :=
  let text := match config_text with
    | some t => t
    | none => compare_config diffFn st none
  let cmd := buildBatchCmd st.vdom text
  let w := { w with trace := w.trace ++ [Event.batch cmd] }
  match execute_command w cmd with
  | (w, Except.error e) => (w, Except.error e)
  | (w, Except.ok _) =>
    match execute_command w (lastlogCmd st.vdom) with
    | (w, Except.error e) => (w, Except.error e)
    | (w, Except.ok last_log) => (w, Except.ok (FortiOS_parse_batch_lastlog last_log))

/-- `retry_codes = [-3, -23]` of `FortiOS._commit`. -/
def retryCodes : List Int := [-3, -23]

/-- The inner `for wc in wrong_commands` scan of the retry loop: its body
does not depend on the matching entry and `break`s after the first match,
so it reduces to this existence test. -/
def hasRetryable (wcs : List (Int × String)) : Bool :=
  wcs.any (fun wc => retryCodes.contains wc.1)

/-- The `while retries > 0` loop of `FortiOS._commit`, with the remaining
iteration count as fuel (the source always decrements, so the loop body
runs exactly five times).  When a retryable failure is present the text is
recomputed ONLY if still unset — the assignment pins it for every later
iteration — then the batch is re-executed and the running config reloaded
without touching the original config. -/
def retryLoop (diffFn : DiffFn) :
    Nat → Option String → List (Int × String) → FortiOSState → World →
    Option String × List (Int × String) × FortiOSState × World × Except PyExc Unit
  | 0, ct, wcs, st, w => (ct, wcs, st, w, Except.ok ())
  | Nat.succ n, ct, wcs, st, w =>
    if hasRetryable wcs then
      let ct := some (match ct with
        | some t => t
        | none => compare_config diffFn st none)
      match commitExecute diffFn st w ct with
      | (w, Except.error e) => (ct, wcs, st, w, Except.error e)
      | (w, Except.ok wcs) =>
        match reload_config st w false with
        | (st, w, Except.ok _) => retryLoop diffFn n ct wcs st w
        | (st, w, Except.error e) => (ct, wcs, st, w, Except.error e)
    else
      retryLoop diffFn n ct wcs st w

/-- `FortiOS._commit(config_text, force, reload_original_config)`,
parameterised by the rollback procedure `rb` it invokes on unforced
failure: execute the batch, reload the configuration, run the bounded
retry loop, and on remaining failures roll back (unless forced) and then
execute `raise exceptions.FailedCommit(wrong_commands)` — the source sets
`exit_code` to `-2`, or `-1` after an unforced rollback, and reaches the
raise whenever `exit_code < 0`, hence in both branches.  Because
`exceptions` is an unbound name in `fortios.py`, that raise statement
itself raises `NameError` for `exceptions`, and the failure list never
escapes as a payload. -/
def commitGo (diffFn : DiffFn)
    (rb : FortiOSState → World → FortiOSState × World × Except PyExc Unit)
    (config_text : Option String) (force reload_original_config : Bool)
    (st : FortiOSState) (w : World) : FortiOSState × World × Except PyExc Unit :=
  match commitExecute diffFn st w config_text with
  | (w, Except.error e) => (st, w, Except.error e)
  | (w, Except.ok wcs) =>
    match reload_config st w reload_original_config with
    | (st, w, Except.error e) => (st, w, Except.error e)
    | (st, w, Except.ok _) =>
      match retryLoop diffFn 5 config_text wcs st w with
      | (_, _, st, w, Except.error e) => (st, w, Except.error e)
      | (_, wcs, st, w, Except.ok _) =>
        if wcs.length > 0 then
          if !force then
            match rb st w with
            | (st, w, Except.ok _) => (st, w, Except.error (PyExc.nameError "exceptions"))
            | (st, w, Except.error e) => (st, w, Except.error e)
          else
            (st, w, Except.error (PyExc.nameError "exceptions"))
        else
          (st, w, Except.ok ())

/-- Placeholder rollback for the commit `rollback` itself triggers: that
inner `_commit` runs with `force=True`, whose failure branch never invokes
rollback, so this argument is unreachable (`commitGo_rb_irrelevant_of_force`
proves the choice immaterial). -/
def rbNone : FortiOSState → World → FortiOSState × World × Except PyExc Unit :=
  fun st w => (st, w, Except.ok ())

/-- `FortiOS.rollback`: diff the running config against the original config
(`compare_config` substitutes the candidate when no original exists) and,
when the diff is non-empty, push it through `_commit(force=True,
reload_original_config=False)`.  A ghost `rollbackStart` event marks
entry. -/
def rollback (diffFn : DiffFn) (st : FortiOSState) (w : World) :
    FortiOSState × World × Except PyExc Unit :=
  let w := { w with trace := w.trace ++ [Event.rollbackStart] }
  let config_text := compare_config diffFn st st.original_config
  if config_text.length > 0 then
    commitGo diffFn rbNone (some config_text) true false st w
  else
    (st, w, Except.ok ())

/-- `FortiOS._commit` proper: `commitGo` with `FortiOS.rollback` as the
rollback procedure. -/
def FortiOS_commit_full (diffFn : DiffFn) (config_text : Option String)
    (force reload_original_config : Bool) (st : FortiOSState) (w : World) :
    FortiOSState × World × Except PyExc Unit :=
  commitGo diffFn (rollback diffFn) config_text force reload_original_config st w

/-- The public `FortiOS.commit(config_text, force)` =
`_commit(config_text, force)` with `reload_original_config=True`. -/
def FortiOS_commit (diffFn : DiffFn) (config_text : Option String) (force : Bool)
    (st : FortiOSState) (w : World) : FortiOSState × World × Except PyExc Unit :=
  FortiOS_commit_full diffFn config_text force true st w

/-! ## Constructor (`FortiOS.__init__`) -/

/-- The names visible to the body of `FortiOS.__init__`: its parameters and
the module-level bindings of `src/pyFG/fortios.py` (its imports, `logger`
and the class itself).  The name `host` read by the first statement
`self.host = host` is among none of them — the parameter is `hostname`. -/
def init_scope_names : List String :=
  ["self", "hostname", "username", "password", "vdom", "device_type", "timeout",
   "FortiConfig", "ConnectHandler", "re", "os", "io", "Differ", "logging",
   "logger", "FortiOS"]

/-- `FortiOS.__init__`: its first statement reads the name `host`; if the
name resolved, the constructor would produce the documented initial state,
otherwise Python raises `NameError` before any attribute is set. -/
def FortiOS_init (hostname username password : String) (vdom : Option String)
    (device_type : String) (timeout : Nat) : Except PyExc FortiOSState :=
  if "host" ∈ init_scope_names then
    Except.ok
      { vdom := vdom
        original_config := none
        running_config := FortiConfig.mkEmpty "running" vdom
        candidate_config := FortiConfig.mkEmpty "candidate" vdom }
  else
    Except.error (PyExc.nameError "host")

/-! ## Trace observations -/

/-- Batch-execution marker test. -/
def isBatch : Event → Bool
  | Event.batch _ => true
  | _ => false

/-- Rollback-entry marker test. -/
def isRollbackStart : Event → Bool
  | Event.rollbackStart => true
  | _ => false

/-- Number of batch executions a trace records before rollback is first
entered (or in the whole trace when no rollback occurs). -/
def countBatchesBeforeRollback (tr : List Event) : Nat :=
  (tr.takeWhile (fun e => !isRollbackStart e)).countP (fun e => isBatch e)

/-- Events that are neither batch markers nor rollback markers: what config
reloading appends to the trace. -/
def QuietEvents (es : List Event) : Prop :=
  ∀ e ∈ es, isBatch e = false ∧ isRollbackStart e = false

/-- The device oracle never answers with a `Command fail` reply, the spec's
transport-failure-free assumption for the batch-protocol properties. -/
def NoCmdFail (dev : Nat → String → List String) : Prop :=
  ∀ n c, containsCommandFail (dev n c) = false

/-! ## Basic execution lemmas -/

/-- The world after one successful `execute_command` round trip. -/
def wAfter (w : World) (c : String) : World :=
  { w with
      step := w.step + 1,
      trace := w.trace ++ [Event.exec c (w.dev w.step c)] }

theorem execute_command_eq (w : World) (c : String)
    (h : containsCommandFail (w.dev w.step c) = false) :
    execute_command w c = (wAfter w c, Except.ok (w.dev w.step c)) := by
  simp [execute_command, wAfter, h]

/-- The state after one reload-mode `load_config` step for path `p`. -/
def stAfterLoad (st : FortiOSState) (w : World) (p : String) : FortiOSState :=
  { st with
      running_config :=
        (st.running_config.parse_config_output (w.dev w.step (showCommand st.vdom p))).add_path p }

theorem load_config_reload_eq (st : FortiOSState) (w : World) (p : String)
    (h : containsCommandFail (w.dev w.step (showCommand st.vdom p)) = false) :
    load_config st w p false true none =
      (stAfterLoad st w p, wAfter w (showCommand st.vdom p), Except.ok ()) := by
  simp [load_config, execute_command_eq w _ h, stAfterLoad]

theorem loadPaths_spec (dev : Nat → String → List String) (hdev : NoCmdFail dev) :
    ∀ (paths : List String) (st : FortiOSState) (w : World), w.dev = dev →
    ∃ run' w' es,
      loadPaths st w paths = ({ st with running_config := run' }, w', Except.ok ()) ∧
      w'.dev = dev ∧ w'.trace = w.trace ++ es ∧ QuietEvents es := by
  intro paths
  induction paths with
  | nil =>
    intro st w hw
    exact ⟨st.running_config, w, [], rfl, hw, by simp, by intro e he; simp at he⟩
  | cons p rest ih =>
    intro st w hw
    have hc : containsCommandFail (w.dev w.step (showCommand st.vdom p)) = false := by
      rw [hw]; exact hdev _ _
    obtain ⟨run', w', es, heq, hdev', htr, hq⟩ :=
      ih (stAfterLoad st w p) (wAfter w (showCommand st.vdom p)) (by simpa [wAfter] using hw)
    refine ⟨run', w',
      Event.exec (showCommand st.vdom p) (w.dev w.step (showCommand st.vdom p)) :: es,
      ?_, hdev', ?_, ?_⟩
    · simpa [loadPaths, load_config_reload_eq st w p hc, stAfterLoad] using heq
    · simp [htr, wAfter]
    · intro e he
      rcases List.mem_cons.mp he with h1 | h1
      · subst h1; exact ⟨rfl, rfl⟩
      · exact hq e h1

theorem reload_config_spec (dev : Nat → String → List String) (hdev : NoCmdFail dev)
    (st : FortiOSState) (w : World) (b : Bool) (hw : w.dev = dev) :
    ∃ st' w' es,
      reload_config st w b = (st', w', Except.ok ()) ∧
      st'.vdom = st.vdom ∧ st'.candidate_config = st.candidate_config ∧
      st'.original_config =
        (if b then some (st.running_config.set_name "original") else st.original_config) ∧
      w'.dev = dev ∧ w'.trace = w.trace ++ es ∧ QuietEvents es := by
  cases b with
  | false =>
    obtain ⟨run', w', es, heq, hdev', htr, hq⟩ :=
      loadPaths_spec dev hdev st.running_config.get_paths
        { st with running_config := FortiConfig.mkEmpty "running" st.vdom } w hw
    refine ⟨{ st with running_config := run' }, w', es, ?_, by simp, by simp, by simp,
      hdev', htr, hq⟩
    simpa [reload_config] using heq
  | true =>
    obtain ⟨run', w', es, heq, hdev', htr, hq⟩ :=
      loadPaths_spec dev hdev st.running_config.get_paths
        { st with
            original_config := some (st.running_config.set_name "original"),
            running_config := FortiConfig.mkEmpty "running" st.vdom } w hw
    refine ⟨{ st with
                original_config := some (st.running_config.set_name "original"),
                running_config := run' }, w', es, ?_, by simp, by simp, by simp,
      hdev', htr, hq⟩
    simpa [reload_config] using heq

theorem commitExecute_eq (diffFn : DiffFn) (st : FortiOSState) (w : World) (ct : Option String)
    (h₁ : containsCommandFail (w.dev w.step
        (buildBatchCmd st.vdom (ct.getD (compare_config diffFn st none)))) = false)
    (h₂ : containsCommandFail (w.dev (w.step + 1) (lastlogCmd st.vdom)) = false) :
    commitExecute diffFn st w ct =
      ({ w with
          step := w.step + 2,
          trace := w.trace ++
            [Event.batch (buildBatchCmd st.vdom (ct.getD (compare_config diffFn st none))),
             Event.exec (buildBatchCmd st.vdom (ct.getD (compare_config diffFn st none)))
               (w.dev w.step (buildBatchCmd st.vdom (ct.getD (compare_config diffFn st none)))),
             Event.exec (lastlogCmd st.vdom) (w.dev (w.step + 1) (lastlogCmd st.vdom))] },
       Except.ok (FortiOS_parse_batch_lastlog (w.dev (w.step + 1) (lastlogCmd st.vdom)))) := by
  cases ct <;> simp_all [commitExecute.eq_def, execute_command]

/-- `commitExecute_eq` repackaged: existence form used by the loop lemmas. -/
theorem commitExecute_spec (dev : Nat → String → List String) (hdev : NoCmdFail dev)
    (diffFn : DiffFn) (st : FortiOSState) (w : World) (ct : Option String)
    (hw : w.dev = dev) :
    ∃ wcs w',
      commitExecute diffFn st w ct = (w', Except.ok wcs) ∧
      (∃ k, wcs = FortiOS_parse_batch_lastlog (dev k (lastlogCmd st.vdom))) ∧
      w'.dev = dev ∧
      (∃ cmd r₁ r₂, cmd = buildBatchCmd st.vdom (ct.getD (compare_config diffFn st none)) ∧
        w'.trace = w.trace ++ [Event.batch cmd, Event.exec cmd r₁,
          Event.exec (lastlogCmd st.vdom) r₂]) := by
  subst hw
  rw [commitExecute_eq diffFn st w ct (hdev _ _) (hdev _ _)]
  exact ⟨_, _, rfl, ⟨w.step + 1, rfl⟩, rfl, ⟨_, _, _, rfl, rfl⟩⟩

theorem retryLoop_zero (diffFn : DiffFn) (ct : Option String) (wcs : List (Int × String))
    (st : FortiOSState) (w : World) :
    retryLoop diffFn 0 ct wcs st w = (ct, wcs, st, w, Except.ok ()) := rfl

theorem retryLoop_succ (diffFn : DiffFn) (n : Nat) (ct : Option String)
    (wcs : List (Int × String)) (st : FortiOSState) (w : World) :
    retryLoop diffFn (n + 1) ct wcs st w =
      (if hasRetryable wcs then
        (let ct := some (match ct with
          | some t => t
          | none => compare_config diffFn st none)
         match commitExecute diffFn st w ct with
         | (w, Except.error e) => (ct, wcs, st, w, Except.error e)
         | (w, Except.ok wcs) =>
           match reload_config st w false with
           | (st, w, Except.ok _) => retryLoop diffFn n ct wcs st w
           | (st, w, Except.error e) => (ct, wcs, st, w, Except.error e))
      else
        retryLoop diffFn n ct wcs st w) := rfl

theorem retryLoop_noRetry (diffFn : DiffFn) (wcs : List (Int × String))
    (h : hasRetryable wcs = false) :
    ∀ (n : Nat) (ct : Option String) (st : FortiOSState) (w : World),
      retryLoop diffFn n ct wcs st w = (ct, wcs, st, w, Except.ok ()) := by
  intro n
  induction n with
  | zero => intro ct st w; rfl
  | succ m ih =>
    intro ct st w
    rw [retryLoop_succ, if_neg (by simp [h])]
    exact ih ct st w

theorem retryLoop_spec (dev : Nat → String → List String) (vd : Option String)
    (Q : List (Int × String) → Prop) (diffFn : DiffFn)
    (hdev : NoCmdFail dev)
    (hQ : ∀ k, Q (FortiOS_parse_batch_lastlog (dev k (lastlogCmd vd)))) :
    ∀ (n : Nat) (ct : Option String) (wcs : List (Int × String))
      (st : FortiOSState) (w : World),
      w.dev = dev → st.vdom = vd → Q wcs →
      ∃ ct' wcs' st' w' es,
        retryLoop diffFn n ct wcs st w = (ct', wcs', st', w', Except.ok ()) ∧
        Q wcs' ∧ st'.vdom = vd ∧
        st'.candidate_config = st.candidate_config ∧
        st'.original_config = st.original_config ∧
        w'.dev = dev ∧ w'.trace = w.trace ++ es ∧
        es.countP (fun e => isBatch e) ≤ n ∧
        (∀ e ∈ es, isRollbackStart e = false) := by
  intro n
  induction n with
  | zero =>
    intro ct wcs st w hw hv hq
    exact ⟨ct, wcs, st, w, [], retryLoop_zero diffFn ct wcs st w, hq, hv, rfl, rfl, hw,
      by simp, by simp, by intro e he; simp at he⟩
  | succ m ih =>
    intro ct wcs st w hw hv hq
    by_cases hr : hasRetryable wcs = true
    · set ct₁ : Option String := some (match ct with
        | some t => t
        | none => compare_config diffFn st none) with hct₁
      obtain ⟨wcs₁, w₁, hexec, ⟨k, hk⟩, hw₁, ⟨cmd, r₁, r₂, hcmd, htr₁⟩⟩ :=
        commitExecute_spec dev hdev diffFn st w ct₁ hw
      obtain ⟨st₂, w₂, es₂, hrel, hv₂, hcand₂, horig₂, hw₂, htr₂, hq₂⟩ :=
        reload_config_spec dev hdev st w₁ false hw₁
      have hq₁ : Q wcs₁ := by rw [hk, hv]; exact hQ k
      obtain ⟨ct', wcs', st', w', es, hloop, hq', hv', hcand', horig', hw', htr', hcnt, hnr⟩ :=
        ih ct₁ wcs₁ st₂ w₂ hw₂ (hv₂.trans hv) hq₁
      refine ⟨ct', wcs', st', w',
        [Event.batch cmd, Event.exec cmd r₁, Event.exec (lastlogCmd st.vdom) r₂] ++ es₂ ++ es,
        ?_, hq', hv', by rw [hcand', hcand₂], by rw [horig', horig₂]; simp, hw', ?_, ?_, ?_⟩
      · rw [retryLoop_succ, if_pos hr, ← hct₁]
        show (match commitExecute diffFn st w ct₁ with
          | (w, Except.error e) => (ct₁, wcs, st, w, Except.error e)
          | (w, Except.ok wcs) =>
            match reload_config st w false with
            | (st, w, Except.ok _) => retryLoop diffFn m ct₁ wcs st w
            | (st, w, Except.error e) => (ct₁, wcs, st, w, Except.error e)) = _
        rw [hexec]
        show (match reload_config st w₁ false with
          | (st, w, Except.ok _) => retryLoop diffFn m ct₁ wcs₁ st w
          | (st, w, Except.error e) => (ct₁, wcs₁, st, w, Except.error e)) = _
        rw [hrel]
        exact hloop
      · rw [htr', htr₂, htr₁]; simp [List.append_assoc]
      · rw [List.countP_append, List.countP_append]
        have h1 : ([Event.batch cmd, Event.exec cmd r₁,
            Event.exec (lastlogCmd st.vdom) r₂].countP (fun e => isBatch e)) = 1 := by
          simp [List.countP_cons, isBatch]
        have h2 : es₂.countP (fun e => isBatch e) = 0 := by
          rw [List.countP_eq_zero]
          intro e he; simp [(hq₂ e he).1]
        omega
      · intro e he
        rcases List.mem_append.mp he with h1 | h1
        · rcases List.mem_append.mp h1 with h2 | h2
          · rcases List.mem_cons.mp h2 with h3 | h3
            · subst h3; rfl
            · rcases List.mem_cons.mp h3 with h4 | h4
              · subst h4; rfl
              · rcases List.mem_cons.mp h4 with h5 | h5
                · subst h5; rfl
                · simp at h5
          · exact (hq₂ e h2).2
        · exact hnr e h1
    · have hr' : hasRetryable wcs = false := by
        cases h : hasRetryable wcs
        · rfl
        · exact absurd h hr
      rw [retryLoop_noRetry diffFn wcs hr' (m + 1) ct st w]
      exact ⟨ct, wcs, st, w, [], rfl, hq, hv, rfl, rfl, hw, by simp, by simp,
        by intro e he; simp at he⟩

theorem commitGo_eq (diffFn : DiffFn)
    (rb : FortiOSState → World → FortiOSState × World × Except PyExc Unit)
    (ct : Option String) (force ro : Bool) (st : FortiOSState) (w : World)
    (w₁ : World) (wcs₁ : List (Int × String)) (st₂ : FortiOSState) (w₂ : World)
    (ct' : Option String) (wcs' : List (Int × String)) (st₃ : FortiOSState) (w₃ : World)
    (hexe : commitExecute diffFn st w ct = (w₁, Except.ok wcs₁))
    (hrel : reload_config st w₁ ro = (st₂, w₂, Except.ok ()))
    (hloop : retryLoop diffFn 5 ct wcs₁ st₂ w₂ = (ct', wcs', st₃, w₃, Except.ok ())) :
    commitGo diffFn rb ct force ro st w =
      (if wcs'.length > 0 then
        if !force then
          match rb st₃ w₃ with
          | (st, w, Except.ok _) => (st, w, Except.error (PyExc.nameError "exceptions"))
          | (st, w, Except.error e) => (st, w, Except.error e)
        else (st₃, w₃, Except.error (PyExc.nameError "exceptions"))
      else (st₃, w₃, Except.ok ())) := by
  rw [commitGo.eq_def, hexe]
  show (match reload_config st w₁ ro with
    | (st, w, Except.error e) => (st, w, Except.error e)
    | (st, w, Except.ok _) =>
      match retryLoop diffFn 5 ct wcs₁ st w with
      | (_, _, st, w, Except.error e) => (st, w, Except.error e)
      | (_, wcs, st, w, Except.ok _) =>
        if wcs.length > 0 then
          if !force then
            match rb st w with
            | (st, w, Except.ok _) => (st, w, Except.error (PyExc.nameError "exceptions"))
            | (st, w, Except.error e) => (st, w, Except.error e)
          else
            (st, w, Except.error (PyExc.nameError "exceptions"))
        else
          (st, w, Except.ok ())) = _
  rw [hrel]
  show (match retryLoop diffFn 5 ct wcs₁ st₂ w₂ with
    | (_, _, st, w, Except.error e) => (st, w, Except.error e)
    | (_, wcs, st, w, Except.ok _) =>
      if wcs.length > 0 then
        if !force then
          match rb st w with
          | (st, w, Except.ok _) => (st, w, Except.error (PyExc.nameError "exceptions"))
          | (st, w, Except.error e) => (st, w, Except.error e)
        else
          (st, w, Except.error (PyExc.nameError "exceptions"))
      else
        (st, w, Except.ok ())) = _
  rw [hloop]

/-! ## Unconditional preservation of the candidate and original configs -/

/-- The fields of the session state the commit machinery never writes
(when the original config is not being reloaded). -/
def PreservesCfg (st st' : FortiOSState) : Prop :=
  st'.vdom = st.vdom ∧ st'.candidate_config = st.candidate_config ∧
  st'.original_config = st.original_config

theorem PreservesCfg_rfl (st : FortiOSState) : PreservesCfg st st := ⟨rfl, rfl, rfl⟩

theorem PreservesCfg_trans {a b c : FortiOSState}
    (h₁ : PreservesCfg a b) (h₂ : PreservesCfg b c) : PreservesCfg a c :=
  ⟨h₂.1.trans h₁.1, h₂.2.1.trans h₁.2.1, h₂.2.2.trans h₁.2.2⟩

theorem load_config_reload_preserves (st : FortiOSState) (w : World) (p : String) :
    PreservesCfg st (load_config st w p false true none).1 := by
  rcases h : execute_command w (showCommand st.vdom p) with ⟨w₁, r⟩
  cases r <;> simp [load_config, h, PreservesCfg]

theorem loadPaths_preserves :
    ∀ (paths : List String) (st : FortiOSState) (w : World),
      PreservesCfg st (loadPaths st w paths).1 := by
  intro paths
  induction paths with
  | nil => intro st w; exact PreservesCfg_rfl st
  | cons p rest ih =>
    intro st w
    rcases h : load_config st w p false true none with ⟨st₁, w₁, r⟩
    have hp : PreservesCfg st st₁ := by
      have := load_config_reload_preserves st w p
      rw [h] at this; exact this
    cases r with
    | ok u =>
      have : loadPaths st w (p :: rest) = loadPaths st₁ w₁ rest := by
        simp [loadPaths, h]
      rw [this]
      exact PreservesCfg_trans hp (ih st₁ w₁)
    | error e =>
      have : loadPaths st w (p :: rest) = (st₁, w₁, Except.error e) := by
        simp [loadPaths, h]
      rw [this]
      exact hp

theorem reload_config_preserves (st : FortiOSState) (w : World) (b : Bool) :
    (reload_config st w b).1.vdom = st.vdom ∧
    (reload_config st w b).1.candidate_config = st.candidate_config ∧
    (reload_config st w b).1.original_config =
      (if b then some (st.running_config.set_name "original") else st.original_config) := by
  cases b with
  | false =>
    have := loadPaths_preserves st.running_config.get_paths
      { st with running_config := FortiConfig.mkEmpty "running" st.vdom } w
    simpa [reload_config, PreservesCfg] using this
  | true =>
    have := loadPaths_preserves st.running_config.get_paths
      { st with
          original_config := some (st.running_config.set_name "original"),
          running_config := FortiConfig.mkEmpty "running" st.vdom } w
    simpa [reload_config, PreservesCfg] using this

theorem retryLoop_preserves (diffFn : DiffFn) :
    ∀ (n : Nat) (ct : Option String) (wcs : List (Int × String))
      (st : FortiOSState) (w : World),
      PreservesCfg st (retryLoop diffFn n ct wcs st w).2.2.1 := by
  intro n
  induction n with
  | zero => intro ct wcs st w; exact PreservesCfg_rfl st
  | succ m ih =>
    intro ct wcs st w
    by_cases hr : hasRetryable wcs = true
    · rw [retryLoop_succ, if_pos hr]
      rcases he : commitExecute diffFn st w (some (match ct with
        | some t => t
        | none => compare_config diffFn st none)) with ⟨w₁, r⟩
      cases r with
      | error e => simp [he, PreservesCfg]
      | ok wcs₁ =>
        rcases hrel : reload_config st w₁ false with ⟨st₂, w₂, r₂⟩
        have hp : PreservesCfg st st₂ := by
          have := reload_config_preserves st w₁ false
          rw [hrel] at this
          exact ⟨this.1, this.2.1, by simpa using this.2.2⟩
        cases r₂ with
        | ok u => simpa [he, hrel] using PreservesCfg_trans hp (ih _ wcs₁ st₂ w₂)
        | error e => simpa [he, hrel] using hp
    · have hr' : hasRetryable wcs = false := by
        cases h : hasRetryable wcs
        · rfl
        · exact absurd h hr
      rw [retryLoop_succ, if_neg (by simp [hr'])]
      exact ih ct wcs st w

/-- Candidate config and vdom: the fields never written on ANY path of the
machinery, including original-config reloads. -/
def PreservesCV (st st' : FortiOSState) : Prop :=
  st'.vdom = st.vdom ∧ st'.candidate_config = st.candidate_config

theorem PreservesCfg_toCV {a b : FortiOSState} (h : PreservesCfg a b) : PreservesCV a b :=
  ⟨h.1, h.2.1⟩

theorem PreservesCV_trans {a b c : FortiOSState}
    (h₁ : PreservesCV a b) (h₂ : PreservesCV b c) : PreservesCV a c :=
  ⟨h₂.1.trans h₁.1, h₂.2.trans h₁.2⟩

theorem commitGo_preserves_cv (diffFn : DiffFn)
    (rb : FortiOSState → World → FortiOSState × World × Except PyExc Unit)
    (hrb : ∀ st w, PreservesCV st (rb st w).1)
    (ct : Option String) (force ro : Bool) (st : FortiOSState) (w : World) :
    PreservesCV st (commitGo diffFn rb ct force ro st w).1 := by
  rcases he : commitExecute diffFn st w ct with ⟨w₁, r⟩
  cases r with
  | error e => simp [commitGo.eq_def, he, PreservesCV]
  | ok wcs₁ =>
    rcases hrel : reload_config st w₁ ro with ⟨st₂, w₂, r₂⟩
    have hp₂ : PreservesCV st st₂ := by
      have := reload_config_preserves st w₁ ro
      rw [hrel] at this
      exact ⟨this.1, this.2.1⟩
    cases r₂ with
    | error e => simpa [commitGo.eq_def, he, hrel] using hp₂
    | ok u =>
      rcases hloop : retryLoop diffFn 5 ct wcs₁ st₂ w₂ with ⟨ct', wcs', st₃, w₃, r₃⟩
      have hp₃ : PreservesCV st st₃ := by
        have := retryLoop_preserves diffFn 5 ct wcs₁ st₂ w₂
        rw [hloop] at this
        exact PreservesCV_trans hp₂ (PreservesCfg_toCV this)
      cases r₃ with
      | error e => simpa [commitGo.eq_def, he, hrel, hloop] using hp₃
      | ok u₂ =>
        by_cases hl : wcs'.length > 0
        · by_cases hf : force = true
          · subst hf
            simpa [commitGo.eq_def, he, hrel, hloop, hl] using hp₃
          · have hf' : force = false := by
              cases force
              · rfl
              · exact absurd rfl hf
            subst hf'
            rcases hrb' : rb st₃ w₃ with ⟨st₄, w₄, r₄⟩
            have hp₄ : PreservesCV st st₄ := by
              have := hrb st₃ w₃
              rw [hrb'] at this
              exact PreservesCV_trans hp₃ this
            cases r₄ with
            | ok u₃ => simpa [commitGo.eq_def, he, hrel, hloop, hl, hrb'] using hp₄
            | error e => simpa [commitGo.eq_def, he, hrel, hloop, hl, hrb'] using hp₄
        · simpa [commitGo.eq_def, he, hrel, hloop, hl] using hp₃

theorem commitGo_forced_preserves (diffFn : DiffFn)
    (rb : FortiOSState → World → FortiOSState × World × Except PyExc Unit)
    (ct : Option String) (st : FortiOSState) (w : World) :
    PreservesCfg st (commitGo diffFn rb ct true false st w).1 := by
  rcases he : commitExecute diffFn st w ct with ⟨w₁, r⟩
  cases r with
  | error e => simp [commitGo.eq_def, he, PreservesCfg]
  | ok wcs₁ =>
    rcases hrel : reload_config st w₁ false with ⟨st₂, w₂, r₂⟩
    have hp₂ : PreservesCfg st st₂ := by
      have := reload_config_preserves st w₁ false
      rw [hrel] at this
      exact ⟨this.1, this.2.1, by simpa using this.2.2⟩
    cases r₂ with
    | error e => simpa [commitGo.eq_def, he, hrel] using hp₂
    | ok u =>
      rcases hloop : retryLoop diffFn 5 ct wcs₁ st₂ w₂ with ⟨ct', wcs', st₃, w₃, r₃⟩
      have hp₃ : PreservesCfg st st₃ := by
        have := retryLoop_preserves diffFn 5 ct wcs₁ st₂ w₂
        rw [hloop] at this
        exact PreservesCfg_trans hp₂ this
      cases r₃ with
      | error e => simpa [commitGo.eq_def, he, hrel, hloop] using hp₃
      | ok u₂ =>
        by_cases hl : wcs'.length > 0
        · simpa [commitGo.eq_def, he, hrel, hloop, hl] using hp₃
        · simpa [commitGo.eq_def, he, hrel, hloop, hl] using hp₃

/-- With `force = True` the failure branch never consults the rollback
procedure, so the placeholder passed by `rollback` to its own inner
`_commit` is immaterial. -/
theorem commitGo_rb_irrelevant (diffFn : DiffFn)
    (rb rb' : FortiOSState → World → FortiOSState × World × Except PyExc Unit)
    (ct : Option String) (ro : Bool) (st : FortiOSState) (w : World) :
    commitGo diffFn rb ct true ro st w = commitGo diffFn rb' ct true ro st w := by
  rcases he : commitExecute diffFn st w ct with ⟨w₁, r⟩
  cases r with
  | error e => simp [commitGo.eq_def, he]
  | ok wcs₁ =>
    rcases hrel : reload_config st w₁ ro with ⟨st₂, w₂, r₂⟩
    cases r₂ with
    | error e => simp [commitGo.eq_def, he, hrel]
    | ok u =>
      rcases hloop : retryLoop diffFn 5 ct wcs₁ st₂ w₂ with ⟨ct', wcs', st₃, w₃, r₃⟩
      cases r₃ with
      | error e => simp [commitGo.eq_def, he, hrel, hloop]
      | ok u₂ => simp [commitGo.eq_def, he, hrel, hloop]

theorem rollback_preserves (diffFn : DiffFn) (st : FortiOSState) (w : World) :
    PreservesCfg st (rollback diffFn st w).1 := by
  by_cases h : (compare_config diffFn st st.original_config).length > 0
  · have : rollback diffFn st w =
        commitGo diffFn rbNone (some (compare_config diffFn st st.original_config)) true false
          st { w with trace := w.trace ++ [Event.rollbackStart] } := by
      simp [rollback, h]
    rw [this]
    exact commitGo_forced_preserves diffFn rbNone _ st _
  · have : rollback diffFn st w =
        (st, { w with trace := w.trace ++ [Event.rollbackStart] }, Except.ok ()) := by
      simp [rollback, h]
    rw [this]
    exact PreservesCfg_rfl st

theorem rollback_spec (dev : Nat → String → List String) (diffFn : DiffFn)
    (hdev : NoCmdFail dev)
    (st : FortiOSState) (w : World) (hw : w.dev = dev) :
    ∃ st' w' es r,
      rollback diffFn st w = (st', w', r) ∧
      w'.trace = w.trace ++ Event.rollbackStart :: es ∧
      w'.dev = dev ∧
      (r = Except.ok () ∨ r = Except.error (PyExc.nameError "exceptions")) := by
  set w₀ : World := { w with trace := w.trace ++ [Event.rollbackStart] } with hw₀
  have hw₀dev : w₀.dev = dev := hw
  by_cases h : (compare_config diffFn st st.original_config).length > 0
  · have hrw : rollback diffFn st w =
        commitGo diffFn rbNone (some (compare_config diffFn st st.original_config)) true false
          st w₀ := by
      simp [rollback, h, hw₀]
    obtain ⟨wcs₁, w₁, hexec, ⟨k, hk⟩, hw₁, ⟨cmd, r₁, r₂, hcmd, htr₁⟩⟩ :=
      commitExecute_spec dev hdev diffFn st w₀
        (some (compare_config diffFn st st.original_config)) hw₀dev
    obtain ⟨st₂, w₂, es₂, hrel, hv₂, hcand₂, horig₂, hw₂, htr₂, hq₂⟩ :=
      reload_config_spec dev hdev st w₁ false hw₁
    obtain ⟨ct', wcs', st₃, w₃, es₃, hloop, hq', hv₃, hcand₃, horig₃, hw₃, htr₃, hcnt₃, hnr₃⟩ :=
      retryLoop_spec dev st.vdom (fun _ => True) diffFn hdev (fun k => trivial) 5
        (some (compare_config diffFn st st.original_config)) wcs₁ st₂ w₂ hw₂
        hv₂ trivial
    rw [hrw, commitGo_eq diffFn rbNone _ true false st w₀ w₁ wcs₁ st₂ w₂ ct' wcs' st₃ w₃
      hexec hrel hloop]
    by_cases hl : wcs'.length > 0
    · refine ⟨st₃, w₃, [Event.batch cmd, Event.exec cmd r₁, Event.exec (lastlogCmd st.vdom) r₂]
        ++ es₂ ++ es₃, Except.error (PyExc.nameError "exceptions"), by simp [hl], ?_, hw₃,
        Or.inr rfl⟩
      rw [htr₃, htr₂, htr₁, hw₀]
      simp [List.append_assoc]
    · refine ⟨st₃, w₃, [Event.batch cmd, Event.exec cmd r₁, Event.exec (lastlogCmd st.vdom) r₂]
        ++ es₂ ++ es₃, Except.ok (), by simp [hl], ?_, hw₃, Or.inl rfl⟩
      rw [htr₃, htr₂, htr₁, hw₀]
      simp [List.append_assoc]
  · refine ⟨st, w₀, [], Except.ok (), by simp [rollback, h, hw₀], by simp [hw₀], hw₀dev,
      Or.inl rfl⟩

theorem takeWhile_prefix_stop {α : Type} (p : α → Bool) :
    ∀ (xs : List α) (y : α) (ys : List α), (∀ x ∈ xs, p x = true) → p y = false →
      (xs ++ y :: ys).takeWhile p = xs := by
  intro xs
  induction xs with
  | nil => intro y ys _ hy; simp [List.takeWhile, hy]
  | cons x rest ih =>
    intro y ys hx hy
    have hxx : p x = true := hx x (by simp)
    simp only [List.cons_append, List.takeWhile, hxx]
    rw [show rest.append (y :: ys) = rest ++ y :: ys from rfl]
    rw [ih y ys (fun a ha => hx a (by simp [ha])) hy]

/-- End-to-end behaviour of an unforced top-level commit whose every
last-log query parses to a failure list satisfying `Q`, with `Q` implying
at least one failure: the main phase performs at most six batch executions,
rollback is then entered, and the raise at the end of `_commit` propagates
as the `NameError` for the unbound name `exceptions`. -/
theorem commit_fail_spec (dev : Nat → String → List String) (vd : Option String)
    (Q : List (Int × String) → Prop) (diffFn : DiffFn)
    (hdev : NoCmdFail dev)
    (hQ : ∀ k, Q (FortiOS_parse_batch_lastlog (dev k (lastlogCmd vd))))
    (hQne : ∀ l, Q l → l ≠ [])
    (ct : Option String) (st : FortiOSState) (hv : st.vdom = vd) :
    ∃ st' w' mainEs rbEs,
      FortiOS_commit diffFn ct false st (mkWorld dev) =
        (st', w', Except.error (PyExc.nameError "exceptions")) ∧
      w'.trace = mainEs ++ Event.rollbackStart :: rbEs ∧
      mainEs.countP (fun e => isBatch e) ≤ 6 ∧
      (∀ e ∈ mainEs, isRollbackStart e = false) := by
  have hw₀ : (mkWorld dev).dev = dev := rfl
  obtain ⟨wcs₁, w₁, hexec, ⟨k, hk⟩, hw₁, ⟨cmd, r₁, r₂, hcmd, htr₁⟩⟩ :=
    commitExecute_spec dev hdev diffFn st (mkWorld dev) ct hw₀
  obtain ⟨st₂, w₂, es₂, hrel, hv₂, hcand₂, horig₂, hw₂, htr₂, hq₂⟩ :=
    reload_config_spec dev hdev st w₁ true hw₁
  obtain ⟨ct', wcs', st₃, w₃, es₃, hloop, hq', hv₃, hcand₃, horig₃, hw₃, htr₃, hcnt₃, hnr₃⟩ :=
    retryLoop_spec dev vd Q diffFn hdev hQ 5 ct wcs₁ st₂ w₂ hw₂
      (hv₂.trans hv) (by rw [hk, hv]; exact hQ k)
  have hcommit : FortiOS_commit diffFn ct false st (mkWorld dev) =
      commitGo diffFn (rollback diffFn) ct false true st (mkWorld dev) := rfl
  rw [hcommit, commitGo_eq diffFn (rollback diffFn) ct false true st (mkWorld dev)
    w₁ wcs₁ st₂ w₂ ct' wcs' st₃ w₃ hexec hrel hloop]
  have hlen : wcs'.length > 0 := by
    cases hwcs : wcs' with
    | nil => exact absurd hwcs (hQne wcs' hq')
    | cons a as => simp [hwcs]
  obtain ⟨st₄, w₄, rbEs, r₄, hrb, htr₄, hw₄, hr₄⟩ :=
    rollback_spec dev diffFn hdev st₃ w₃ hw₃
  have hmain : w₃.trace =
      ([Event.batch cmd, Event.exec cmd r₁, Event.exec (lastlogCmd st.vdom) r₂] ++ es₂ ++ es₃) := by
    rw [htr₃, htr₂, htr₁]
    simp [mkWorld, List.append_assoc]
  have hcount : ([Event.batch cmd, Event.exec cmd r₁, Event.exec (lastlogCmd st.vdom) r₂]
      ++ es₂ ++ es₃).countP (fun e => isBatch e) ≤ 6 := by
    rw [List.countP_append, List.countP_append]
    have h1 : ([Event.batch cmd, Event.exec cmd r₁,
        Event.exec (lastlogCmd st.vdom) r₂].countP (fun e => isBatch e)) = 1 := by
      simp [List.countP_cons, isBatch]
    have h2 : es₂.countP (fun e => isBatch e) = 0 := by
      rw [List.countP_eq_zero]
      intro e he; simp [(hq₂ e he).1]
    omega
  have hnrs : ∀ e ∈ ([Event.batch cmd, Event.exec cmd r₁,
      Event.exec (lastlogCmd st.vdom) r₂] ++ es₂ ++ es₃), isRollbackStart e = false := by
    intro e he
    rcases List.mem_append.mp he with h1 | h1
    · rcases List.mem_append.mp h1 with h2 | h2
      · rcases List.mem_cons.mp h2 with h3 | h3
        · subst h3; rfl
        · rcases List.mem_cons.mp h3 with h4 | h4
          · subst h4; rfl
          · rcases List.mem_cons.mp h4 with h5 | h5
            · subst h5; rfl
            · simp at h5
      · exact (hq₂ e h2).2
    · exact hnr₃ e h1
  rcases hr₄ with hok | herr
  · subst hok
    refine ⟨st₄, w₄,
      [Event.batch cmd, Event.exec cmd r₁, Event.exec (lastlogCmd st.vdom) r₂] ++ es₂ ++ es₃,
      rbEs, ?_, ?_, hcount, hnrs⟩
    · simp [hlen, hrb]
    · rw [htr₄, hmain]
  · subst herr
    refine ⟨st₄, w₄,
      [Event.batch cmd, Event.exec cmd r₁, Event.exec (lastlogCmd st.vdom) r₂] ++ es₂ ++ es₃,
      rbEs, ?_, ?_, hcount, hnrs⟩
    · simp [hlen, hrb]
    · rw [htr₄, hmain]

/-- End-to-end behaviour of a FORCED top-level commit under the same
always-failing device: no rollback is entered and the failing raise still
happens — propagating as the `NameError` for the unbound name
`exceptions`. -/
theorem commit_forced_spec (dev : Nat → String → List String) (vd : Option String)
    (Q : List (Int × String) → Prop) (diffFn : DiffFn)
    (hdev : NoCmdFail dev)
    (hQ : ∀ k, Q (FortiOS_parse_batch_lastlog (dev k (lastlogCmd vd))))
    (hQne : ∀ l, Q l → l ≠ [])
    (ct : Option String) (st : FortiOSState) (hv : st.vdom = vd) :
    ∃ st' w',
      FortiOS_commit diffFn ct true st (mkWorld dev) =
        (st', w', Except.error (PyExc.nameError "exceptions")) ∧
      (∀ e ∈ w'.trace, isRollbackStart e = false) := by
  have hw₀ : (mkWorld dev).dev = dev := rfl
  obtain ⟨wcs₁, w₁, hexec, ⟨k, hk⟩, hw₁, ⟨cmd, r₁, r₂, hcmd, htr₁⟩⟩ :=
    commitExecute_spec dev hdev diffFn st (mkWorld dev) ct hw₀
  obtain ⟨st₂, w₂, es₂, hrel, hv₂, hcand₂, horig₂, hw₂, htr₂, hq₂⟩ :=
    reload_config_spec dev hdev st w₁ true hw₁
  obtain ⟨ct', wcs', st₃, w₃, es₃, hloop, hq', hv₃, hcand₃, horig₃, hw₃, htr₃, hcnt₃, hnr₃⟩ :=
    retryLoop_spec dev vd Q diffFn hdev hQ 5 ct wcs₁ st₂ w₂ hw₂
      (hv₂.trans hv) (by rw [hk, hv]; exact hQ k)
  have hcommit : FortiOS_commit diffFn ct true st (mkWorld dev) =
      commitGo diffFn (rollback diffFn) ct true true st (mkWorld dev) := rfl
  rw [hcommit, commitGo_eq diffFn (rollback diffFn) ct true true st (mkWorld dev)
    w₁ wcs₁ st₂ w₂ ct' wcs' st₃ w₃ hexec hrel hloop]
  have hlen : wcs'.length > 0 := by
    cases hwcs : wcs' with
    | nil => exact absurd hwcs (hQne wcs' hq')
    | cons a as => simp [hwcs]
  refine ⟨st₃, w₃, by simp [hlen], ?_⟩
  intro e he
  rw [htr₃, htr₂, htr₁] at he
  simp only [mkWorld, List.append_assoc, List.nil_append] at he
  rcases List.mem_append.mp he with h1 | h1
  · rcases List.mem_cons.mp h1 with h2 | h2
    · subst h2; rfl
    · rcases List.mem_cons.mp h2 with h3 | h3
      · subst h3; rfl
      · rcases List.mem_cons.mp h3 with h4 | h4
        · subst h4; rfl
        · simp at h4
  · rcases List.mem_append.mp h1 with h2 | h2
    · exact (hq₂ e h2).2
    · exact hnr₃ e h2

/-! ## Claim theorems -/

/-- C1: for every top-level commit in which each batch execution's parsed
lastlog contains exactly one failing entry with retryable status code `-3`,
the engine performs at most 5 retry executions after the first attempt —
at most 6 batch executions in total before rollback is entered — and then
proceeds to rollback/failure handling: rollback runs and the terminal
raise of `_commit` propagates (as the `NameError` for the unbound name
`exceptions`; C2/C6 record that it is not the documented `FailedCommit`). -/
theorem C1_retry_bound (diffFn : DiffFn) (dev : Nat → String → List String)
    (st : FortiOSState) (ct : Option String) (cmdOf : Nat → String)
    (hdev : NoCmdFail dev)
    (hfail : ∀ k, FortiOS_parse_batch_lastlog (dev k (lastlogCmd st.vdom)) = [(-3, cmdOf k)]) :
    ∃ st' w',
      FortiOS_commit diffFn ct false st (mkWorld dev) =
        (st', w', Except.error (PyExc.nameError "exceptions")) ∧
      countBatchesBeforeRollback w'.trace ≤ 6 ∧
      Event.rollbackStart ∈ w'.trace := by
  obtain ⟨st', w', mainEs, rbEs, heq, htr, hcnt, hnr⟩ :=
    commit_fail_spec dev st.vdom (fun l => ∃ c, l = [(-3, c)]) diffFn hdev
      (fun k => ⟨cmdOf k, hfail k⟩) (by rintro l ⟨c, rfl⟩; simp) ct st rfl
  refine ⟨st', w', heq, ?_, ?_⟩
  · rw [htr]
    unfold countBatchesBeforeRollback
    rw [takeWhile_prefix_stop _ mainEs Event.rollbackStart rbEs
      (fun e he => by simp [hnr e he]) (by simp [isRollbackStart])]
    exact hcnt
  · rw [htr]; simp

def devAllRetry : Nat → String → List String :=
  fun _ c => if c = "execute batch lastlog" then ["-3: set a 2"] else []

def diffTriv : DiffFn := fun _ _ => ""

def st0 : FortiOSState :=
  { vdom := none
    original_config := none
    running_config := FortiConfig.mkEmpty "running" none
    candidate_config := FortiConfig.mkEmpty "candidate" none }

theorem C1_retry_bound_witness :
    ∃ st' w',
      FortiOS_commit diffTriv none false st0 (mkWorld devAllRetry) =
        (st', w', Except.error (PyExc.nameError "exceptions")) ∧
      countBatchesBeforeRollback w'.trace ≤ 6 ∧
      Event.rollbackStart ∈ w'.trace :=
  C1_retry_bound diffTriv devAllRetry st0 none (fun _ => "set a 2")
    (by intro n c; simp only [devAllRetry, NoCmdFail]; split <;> decide)
    (by intro k; simp only [devAllRetry]; decide)

def devPermFail : Nat → String → List String :=
  fun _ c => if c = "execute batch lastlog" then ["-5: set a 2"] else []

/-- C2 (code bug): at this concrete failing input — an unforced commit
whose lastlog parses to the permanent failure `[(-5, "set a 2")]` — the
engine does invoke `rollback()` first, but the subsequent
`raise exceptions.FailedCommit(wrong_commands)` itself raises
`NameError: name 'exceptions' is not defined` (`fortios.py` never imports
`exceptions`), so no `FailedCommit` error carrying the
`(statusCode, command)` list ever reaches the caller, contrary to the
claim and to `commit`'s own docstring. -/
theorem C2_unforced_rollback_then_name_error :
    (FortiOS_commit diffTriv none false st0 (mkWorld devPermFail)).2.2 =
      Except.error (PyExc.nameError "exceptions") ∧
    Event.rollbackStart ∈
      (FortiOS_commit diffTriv none false st0 (mkWorld devPermFail)).2.1.trace := by
  refine ⟨by rfl, by decide⟩

/-- C5: when the first attempt's parsed lastlog failures are all
non-retryable (codes outside `{-3, -23}`) and non-empty, the retry loop
sends no further batch execution: exactly one batch execution precedes the
rollback, which is entered directly, and the terminal raise of `_commit`
propagates (as the `NameError` for the unbound name `exceptions`). -/
theorem C5_nonretryable_no_retry (diffFn : DiffFn)
    (dev : Nat → String → List String) (st : FortiOSState) (ct : Option String)
    (wcs₀ : List (Int × String))
    (hdev : NoCmdFail dev)
    (hfirst : FortiOS_parse_batch_lastlog (dev 1 (lastlogCmd st.vdom)) = wcs₀)
    (hnr : hasRetryable wcs₀ = false)
    (hne : wcs₀ ≠ []) :
    ∃ st' w',
      FortiOS_commit diffFn ct false st (mkWorld dev) =
        (st', w', Except.error (PyExc.nameError "exceptions")) ∧
      countBatchesBeforeRollback w'.trace = 1 ∧
      Event.rollbackStart ∈ w'.trace := by
  have hexec : commitExecute diffFn st (mkWorld dev) ct =
      ({ dev := dev, step := 2,
         trace := [Event.batch (buildBatchCmd st.vdom (ct.getD (compare_config diffFn st none))),
           Event.exec (buildBatchCmd st.vdom (ct.getD (compare_config diffFn st none)))
             (dev 0 (buildBatchCmd st.vdom (ct.getD (compare_config diffFn st none)))),
           Event.exec (lastlogCmd st.vdom) (dev 1 (lastlogCmd st.vdom))] },
       Except.ok wcs₀) := by
    rw [← hfirst]
    exact commitExecute_eq diffFn st (mkWorld dev) ct (hdev _ _) (hdev _ _)
  obtain ⟨st₂, w₂, es₂, hrel, hv₂, hcand₂, horig₂, hw₂, htr₂, hq₂⟩ :=
    reload_config_spec dev hdev st
      { dev := dev, step := 2,
        trace := [Event.batch (buildBatchCmd st.vdom (ct.getD (compare_config diffFn st none))),
          Event.exec (buildBatchCmd st.vdom (ct.getD (compare_config diffFn st none)))
            (dev 0 (buildBatchCmd st.vdom (ct.getD (compare_config diffFn st none)))),
          Event.exec (lastlogCmd st.vdom) (dev 1 (lastlogCmd st.vdom))] }
      true rfl
  have hloop := retryLoop_noRetry diffFn wcs₀ hnr 5 ct st₂ w₂
  have hcommit : FortiOS_commit diffFn ct false st (mkWorld dev) =
      commitGo diffFn (rollback diffFn) ct false true st (mkWorld dev) := rfl
  rw [hcommit, commitGo_eq diffFn (rollback diffFn) ct false true st (mkWorld dev)
    _ wcs₀ st₂ w₂ ct wcs₀ st₂ w₂ hexec hrel hloop]
  have hlen : wcs₀.length > 0 := by
    cases hwcs : wcs₀ with
    | nil => exact absurd hwcs hne
    | cons a as => simp [hwcs]
  obtain ⟨st₄, w₄, rbEs, r₄, hrb, htr₄, hw₄, hr₄⟩ :=
    rollback_spec dev diffFn hdev st₂ w₂ hw₂
  have hmain : w₂.trace =
      ([Event.batch (buildBatchCmd st.vdom (ct.getD (compare_config diffFn st none))),
        Event.exec (buildBatchCmd st.vdom (ct.getD (compare_config diffFn st none)))
          (dev 0 (buildBatchCmd st.vdom (ct.getD (compare_config diffFn st none)))),
        Event.exec (lastlogCmd st.vdom) (dev 1 (lastlogCmd st.vdom))] ++ es₂) := htr₂
  have hcnt : countBatchesBeforeRollback w₄.trace = 1 := by
    rw [htr₄, hmain]
    unfold countBatchesBeforeRollback
    rw [List.append_assoc, ← List.append_assoc]
    rw [takeWhile_prefix_stop _ _ Event.rollbackStart rbEs ?hall (by simp [isRollbackStart])]
    case hall =>
      intro e he
      rcases List.mem_append.mp he with h1 | h1
      · rcases List.mem_cons.mp h1 with h2 | h2
        · subst h2; simp [isRollbackStart]
        · rcases List.mem_cons.mp h2 with h3 | h3
          · subst h3; simp [isRollbackStart]
          · rcases List.mem_cons.mp h3 with h4 | h4
            · subst h4; simp [isRollbackStart]
            · simp at h4
      · simp [(hq₂ e h1).2]
    rw [List.countP_append]
    have h2 : es₂.countP (fun e => isBatch e) = 0 := by
      rw [List.countP_eq_zero]
      intro e he; simp [(hq₂ e he).1]
    rw [h2]
    simp [List.countP_cons, List.countP_nil, isBatch]
  have hmem : Event.rollbackStart ∈ w₄.trace := by rw [htr₄]; simp
  rcases hr₄ with hok | herr
  · subst hok
    exact ⟨st₄, w₄, by simp [hlen, hrb], hcnt, hmem⟩
  · subst herr
    exact ⟨st₄, w₄, by simp [hlen, hrb], hcnt, hmem⟩

theorem C5_nonretryable_no_retry_witness :
    ∃ st' w',
      FortiOS_commit diffTriv none false st0 (mkWorld devPermFail) =
        (st', w', Except.error (PyExc.nameError "exceptions")) ∧
      countBatchesBeforeRollback w'.trace = 1 ∧
      Event.rollbackStart ∈ w'.trace :=
  C5_nonretryable_no_retry diffTriv devPermFail st0 none [(-5, "set a 2")]
    (by intro n c; simp only [devPermFail, NoCmdFail]; split <;> decide)
    (by decide) (by decide) (by decide)

/-- C6 (code bug): at this concrete failing input — a FORCED commit whose
lastlog parses to the permanent failure `[(-5, "set a 2")]` — the engine
indeed does not invoke rollback, and it does reach the raise (`exit_code`
stays `-2 < 0` when forced); but `raise exceptions.FailedCommit(...)`
itself raises `NameError: name 'exceptions' is not defined`, so what
propagates is not a commit-failure error carrying the failure list as the
claim (and `commit`'s docstring) say. -/
theorem C6_forced_name_error_no_rollback :
    (FortiOS_commit diffTriv none true st0 (mkWorld devPermFail)).2.2 =
      Except.error (PyExc.nameError "exceptions") ∧
    Event.rollbackStart ∉
      (FortiOS_commit diffTriv none true st0 (mkWorld devPermFail)).2.1.trace := by
  refine ⟨by rfl, by decide⟩

/-- C7: the candidate config (its tree and its recorded paths) is an
invariant of the whole commit/rollback machinery: `_commit` — with any
text, force and reload flags, hence including every retry and running
config reload — and `rollback` leave it unchanged; only explicit load
operations write it. -/
theorem C7_candidate_invariant (diffFn : DiffFn) (ct : Option String)
    (force ro : Bool) (st : FortiOSState) (w : World) :
    (FortiOS_commit_full diffFn ct force ro st w).1.candidate_config = st.candidate_config ∧
    (rollback diffFn st w).1.candidate_config = st.candidate_config := by
  constructor
  · exact (commitGo_preserves_cv diffFn (rollback diffFn)
      (fun st w => PreservesCfg_toCV (rollback_preserves diffFn st w)) ct force ro st w).2
  · exact (rollback_preserves diffFn st w).2.1

/-- C10: `FortiOS.__init__` assigns `self.host` from the undefined name
`host` (the parameter is `hostname`), so every constructor invocation
raises `NameError` and no instance is ever produced. -/
theorem C10_init_always_name_error (hostname username password : String)
    (vdom : Option String) (device_type : String) (timeout : Nat) :
    FortiOS_init hostname username password vdom device_type timeout =
      Except.error (PyExc.nameError "host") := by
  unfold FortiOS_init
  rw [if_neg (by decide)]

/-- C4: `rollback()` diffs the live (running) config against the snapshot
(original) config; an empty diff is a no-op with no device interaction
(only the ghost marker is appended), a non-empty diff invokes the commit
protocol with `force=true` and `reload_original_config=false`, and the
snapshot is never overwritten by the rollback-triggered commit. -/
theorem C4_rollback_protocol (diffFn : DiffFn) (st : FortiOSState) (w : World)
    (orig : FortiConfig) (horig : st.original_config = some orig) :
    compare_config diffFn st st.original_config = diffFn st.running_config.tree orig.tree ∧
    ((diffFn st.running_config.tree orig.tree).length = 0 →
      rollback diffFn st w =
        (st, { w with trace := w.trace ++ [Event.rollbackStart] }, Except.ok ())) ∧
    ((diffFn st.running_config.tree orig.tree).length > 0 →
      rollback diffFn st w =
        commitGo diffFn rbNone (some (diffFn st.running_config.tree orig.tree)) true false st
          { w with trace := w.trace ++ [Event.rollbackStart] }) ∧
    (rollback diffFn st w).1.original_config = st.original_config := by
  have hcc : compare_config diffFn st st.original_config =
      diffFn st.running_config.tree orig.tree := by
    rw [horig]; rfl
  refine ⟨hcc, ?_, ?_, (rollback_preserves diffFn st w).2.2⟩
  · intro h
    simp [rollback, hcc, h]
  · intro h
    simp [rollback, hcc, h]

def stOrig : FortiOSState :=
  { st0 with original_config := some (FortiConfig.mkEmpty "original" none) }

theorem C4_rollback_protocol_witness :
    compare_config diffTriv stOrig stOrig.original_config =
      diffTriv stOrig.running_config.tree (FortiConfig.mkEmpty "original" none).tree ∧
    ((diffTriv stOrig.running_config.tree (FortiConfig.mkEmpty "original" none).tree).length = 0 →
      rollback diffTriv stOrig (mkWorld devPermFail) =
        (stOrig, { mkWorld devPermFail with
          trace := (mkWorld devPermFail).trace ++ [Event.rollbackStart] }, Except.ok ())) ∧
    ((diffTriv stOrig.running_config.tree (FortiConfig.mkEmpty "original" none).tree).length > 0 →
      rollback diffTriv stOrig (mkWorld devPermFail) =
        commitGo diffTriv rbNone
          (some (diffTriv stOrig.running_config.tree (FortiConfig.mkEmpty "original" none).tree))
          true false stOrig
          { mkWorld devPermFail with
            trace := (mkWorld devPermFail).trace ++ [Event.rollbackStart] }) ∧
    (rollback diffTriv stOrig (mkWorld devPermFail)).1.original_config =
      stOrig.original_config :=
  C4_rollback_protocol diffTriv stOrig (mkWorld devPermFail)
    (FortiConfig.mkEmpty "original" none) rfl

/-! ## Log-grammar characterisation -/

theorem dropWhile_head_not {α : Type} (p : α → Bool) :
    ∀ (l : List α) (c : α) (cs : List α), l.dropWhile p = c :: cs → p c = false := by
  intro l
  induction l with
  | nil => intro c cs h; simp [List.dropWhile] at h
  | cons a tl ih =>
    intro c cs h
    rw [List.dropWhile_cons] at h
    by_cases hp : p a = true
    · rw [if_pos hp] at h; exact ih c cs h
    · rw [if_neg hp] at h
      cases h
      simpa using hp

theorem takeWhile_dropWhile_of_decomp {α : Type} (p : α → Bool) :
    ∀ (l₁ l₂ : List α), (∀ c ∈ l₁, p c = true) →
      (l₂ = [] ∨ ∃ c cs, l₂ = c :: cs ∧ p c = false) →
      (l₁ ++ l₂).takeWhile p = l₁ ∧ (l₁ ++ l₂).dropWhile p = l₂ := by
  intro l₁
  induction l₁ with
  | nil =>
    intro l₂ _ h₂
    rcases h₂ with rfl | ⟨c, cs, rfl, hc⟩
    · simp
    · constructor
      · simp [List.takeWhile_cons, hc]
      · simp [List.dropWhile_cons, hc]
  | cons a tl ih =>
    intro l₂ h₁ h₂
    have ha : p a = true := h₁ a (by simp)
    obtain ⟨ht, hd⟩ := ih l₂ (fun c hc => h₁ c (by simp [hc])) h₂
    constructor
    · simp [List.cons_append, List.takeWhile_cons, ha, ht]
    · simp [List.cons_append, List.dropWhile_cons, ha, hd]

theorem parseCore_some_iff (neg : Bool) (cs1 : List Char) (code : Int) (cmd : String) :
    parseCore neg cs1 = some (code, cmd) ↔
      ∃ ds ws rest, ds ≠ [] ∧ (∀ c ∈ ds, c.isDigit = true) ∧ ws ≠ [] ∧
        (∀ c ∈ ws, isWordChar c = false) ∧
        (rest = [] ∨ ∃ c cs, rest = c :: cs ∧ isWordChar c = true) ∧
        cs1 = ds ++ ':' :: (ws ++ rest) ∧
        code = (if neg then -(digitsVal ds) else digitsVal ds) ∧
        cmd = String.mk rest := by
  have hcore : parseCore neg cs1 =
      (if (cs1.takeWhile Char.isDigit).isEmpty then none
       else match cs1.dropWhile Char.isDigit with
        | c1 :: rest2 =>
          if c1 = ':' then
            if ((rest2.takeWhile (fun c => !(isWordChar c))).isEmpty) then none
            else some ((if neg then -(digitsVal (cs1.takeWhile Char.isDigit))
                        else digitsVal (cs1.takeWhile Char.isDigit)),
                       String.mk (rest2.dropWhile (fun c => !(isWordChar c))))
          else none
        | [] => none) := rfl
  constructor
  · intro h
    rw [hcore] at h
    by_cases hds : (cs1.takeWhile Char.isDigit).isEmpty = true
    · rw [if_pos hds] at h; exact absurd h (by simp)
    · rw [if_neg hds] at h
      rcases hr1 : cs1.dropWhile Char.isDigit with _ | ⟨c1, rest2⟩
      · rw [hr1] at h; exact absurd h (by simp)
      · rw [hr1] at h
        dsimp only at h
        by_cases hc1 : c1 = ':'
        · rw [if_pos hc1] at h
          by_cases hws : ((rest2.takeWhile (fun c => !(isWordChar c))).isEmpty) = true
          · rw [if_pos hws] at h; exact absurd h (by simp)
          · rw [if_neg hws] at h
            have hinj := Option.some.inj h
            refine ⟨cs1.takeWhile Char.isDigit,
              rest2.takeWhile (fun c => !(isWordChar c)),
              rest2.dropWhile (fun c => !(isWordChar c)), ?_, ?_, ?_, ?_, ?_, ?_, ?_, ?_⟩
            · intro hnil; rw [hnil] at hds; exact hds rfl
            · intro c hc; exact List.mem_takeWhile_imp hc
            · intro hnil; rw [hnil] at hws; exact hws rfl
            · intro c hc
              have := List.mem_takeWhile_imp hc
              simpa using this
            · rcases hrest : rest2.dropWhile (fun c => !(isWordChar c)) with _ | ⟨cr, crs⟩
              · exact Or.inl rfl
              · refine Or.inr ⟨cr, crs, rfl, ?_⟩
                have := dropWhile_head_not (fun c => !(isWordChar c)) rest2 cr crs hrest
                simpa using this
            · rw [List.takeWhile_append_dropWhile (fun c => !(isWordChar c)) rest2,
                ← hc1, ← hr1, List.takeWhile_append_dropWhile Char.isDigit cs1]
            · exact (Prod.mk.injEq _ _ _ _ ▸ hinj).1.symm
            · exact (Prod.mk.injEq _ _ _ _ ▸ hinj).2.symm
        · rw [if_neg hc1] at h; exact absurd h (by simp)
  · rintro ⟨ds, ws, rest, hds, hdsd, hws, hwsw, hrest, hcs1, hcode, hcmd⟩
    have hdsdec : (ds ++ ':' :: (ws ++ rest)).takeWhile Char.isDigit = ds ∧
        (ds ++ ':' :: (ws ++ rest)).dropWhile Char.isDigit = ':' :: (ws ++ rest) :=
      takeWhile_dropWhile_of_decomp Char.isDigit ds (':' :: (ws ++ rest)) hdsd
        (Or.inr ⟨':', ws ++ rest, rfl, by decide⟩)
    have hwsdec : (ws ++ rest).takeWhile (fun c => !(isWordChar c)) = ws ∧
        (ws ++ rest).dropWhile (fun c => !(isWordChar c)) = rest := by
      refine takeWhile_dropWhile_of_decomp (fun c => !(isWordChar c)) ws rest
        (fun c hc => by simp [hwsw c hc]) ?_
      rcases hrest with rfl | ⟨c, cs, rfl, hc⟩
      · exact Or.inl rfl
      · exact Or.inr ⟨c, cs, rfl, by simp [hc]⟩
    have hdsne : ds.isEmpty = false := by
      cases hdd : ds with
      | nil => exact absurd hdd hds
      | cons a as => simp [hdd]
    have hwsne : ws.isEmpty = false := by
      cases hww : ws with
      | nil => exact absurd hww hws
      | cons a as => simp [hww]
    subst hcs1
    rw [hcore, hdsdec.1, hdsdec.2, hdsne]
    rw [if_neg (by simp)]
    dsimp only
    rw [if_pos rfl, hwsdec.1, hwsdec.2, hwsne]
    rw [if_neg (by simp)]
    rw [hcode, hcmd]

theorem parseLine_iff_grammar (line : String) (code : Int) (cmd : String) :
    parseLine line = some (code, cmd) ↔ GrammarMatch line code cmd := by
  have hpl : parseLine line = (match line.toList with
    | [] => none
    | c :: tl => if c = '-' then parseCore true tl else parseCore false (c :: tl)) := rfl
  constructor
  · intro h
    rw [hpl] at h
    rcases hcs : line.toList with _ | ⟨c0, tl⟩
    · rw [hcs] at h; exact absurd h (by simp)
    · rw [hcs] at h
      dsimp only at h
      by_cases hneg : c0 = '-'
      · rw [if_pos hneg] at h
        obtain ⟨ds, ws, rest, h1, h2, h3, h4, h5, h6, h7, h8⟩ :=
          (parseCore_some_iff true tl code cmd).mp h
        exact ⟨true, ds, ws, rest, h1, h2, h3, h4, h5, by rw [hcs, hneg, h6]; simp, h7, h8⟩
      · rw [if_neg hneg] at h
        obtain ⟨ds, ws, rest, h1, h2, h3, h4, h5, h6, h7, h8⟩ :=
          (parseCore_some_iff false (c0 :: tl) code cmd).mp h
        exact ⟨false, ds, ws, rest, h1, h2, h3, h4, h5, by rw [hcs, h6]; simp, h7, h8⟩
  · rintro ⟨neg, ds, ws, rest, h1, h2, h3, h4, h5, h6, h7, h8⟩
    rw [hpl]
    cases neg with
    | true =>
      have h6' : line.toList = '-' :: (ds ++ ':' :: (ws ++ rest)) := by
        rw [h6]; simp
      rw [h6']
      dsimp only
      rw [if_pos rfl]
      exact (parseCore_some_iff true _ code cmd).mpr
        ⟨ds, ws, rest, h1, h2, h3, h4, h5, rfl, h7, h8⟩
    | false =>
      obtain ⟨d, ds', hdd⟩ : ∃ d ds', ds = d :: ds' := by
        cases hdd : ds with
        | nil => exact absurd hdd h1
        | cons a as => exact ⟨a, as, rfl⟩
      have hddig : d.isDigit = true := h2 d (by rw [hdd]; simp)
      have hdneq : ¬ (d = '-') := by
        intro hcon; rw [hcon] at hddig; exact absurd hddig (by decide)
      have h6' : line.toList = d :: (ds' ++ ':' :: (ws ++ rest)) := by
        rw [h6, hdd]; simp
      rw [h6']
      dsimp only
      rw [if_neg hdneq]
      have hsw : (d :: (ds' ++ ':' :: (ws ++ rest))) = ds ++ ':' :: (ws ++ rest) := by
        rw [hdd]; rfl
      rw [hsw]
      exact (parseCore_some_iff false _ code cmd).mpr
        ⟨ds, ws, rest, h1, h2, h3, h4, h5, rfl, h7, h8⟩

/-- C3 counterexample: the line `-3:.foo` does NOT match the claimed
grammar (colon followed by WHITESPACE — `.` is not whitespace), yet the
parser does not ignore it: the regex's `\W+` accepts the dot and the
parser emits `(-3, "foo")`. -/
theorem C3_whitespace_counterexample :
    FortiOS_parse_batch_lastlog ["-3:.foo"] = [(-3, "foo")] ∧
    specLineMatchesWS "-3:.foo" = false := by
  constructor
  · rfl
  · rfl

/-- C3 (amended): the parser returns, in input order, one `(code, cmd)`
pair with integer code for each line matching the grammar `optional -,
digits, :, one or more NON-WORD characters (not merely whitespace), rest
of line` whose code is negative, and silently ignores every other line;
the claim's example parses as stated. -/
theorem C3_parser_grammar :
    (∀ lines, FortiOS_parse_batch_lastlog lines = lines.filterMap (fun line =>
      match parseLine line with
      | some p => if p.1 < 0 then some p else none
      | none => none)) ∧
    (∀ line code cmd, parseLine line = some (code, cmd) ↔ GrammarMatch line code cmd) ∧
    FortiOS_parse_batch_lastlog ["-3:   conf foo bar", "0: set enable", "random banner"] =
      [(-3, "conf foo bar")] :=
  ⟨fun _ => rfl, parseLine_iff_grammar, by rfl⟩

theorem C3_parser_grammar_witness : GrammarMatch "-3: set a 2" (-3) "set a 2" :=
  (C3_parser_grammar.2.1 "-3: set a 2" (-3) "set a 2").mp (by rfl)

/-- C8 (amended): the batch script framing, with the scope decided by the
source's SUBSTRING test `'global' in vdom`: no vdom — bare framing; a vdom
whose name contains `global` (in particular the global vdom itself) — the
`conf global` framing without a `conf vdom/edit` block; a named vdom whose
name does not contain `global` — the `conf global` + `conf vdom/edit`
framing; and the result is retrieved with the same scope prefix followed
by `execute batch lastlog`. -/
theorem C8_batch_framing (v t : String) (diffFn : DiffFn) (st : FortiOSState) (w : World)
    (h₁ : containsCommandFail (w.dev w.step (buildBatchCmd st.vdom t)) = false)
    (h₂ : containsCommandFail (w.dev (w.step + 1) (lastlogCmd st.vdom)) = false) :
    buildBatchCmd none t = "execute batch start\n" ++ t ++ "\nexecute batch end\n" ∧
    (containsSubstr v "global" = true →
      buildBatchCmd (some v) t =
        "conf global\n    execute batch start\n" ++ t ++ "\nexecute batch end\n") ∧
    (containsSubstr v "global" = false →
      buildBatchCmd (some v) t =
        "conf global\n    execute batch start\nconf vdom\n  edit " ++ v ++ "\n" ++ t
          ++ "\nexecute batch end\n") ∧
    scopePre none = "" ∧
    scopePre (some v) = "conf global\n    " ∧
    lastlogCmd st.vdom = scopePre st.vdom ++ "execute batch lastlog" ∧
    (commitExecute diffFn st w (some t)).1.trace =
      w.trace ++ [Event.batch (buildBatchCmd st.vdom t),
        Event.exec (buildBatchCmd st.vdom t) (w.dev w.step (buildBatchCmd st.vdom t)),
        Event.exec (lastlogCmd st.vdom) (w.dev (w.step + 1) (lastlogCmd st.vdom))] := by
  refine ⟨rfl, ?_, ?_, rfl, rfl, rfl, ?_⟩
  · intro h
    simp [buildBatchCmd, h]
  · intro h
    simp [buildBatchCmd, h]
  · rw [commitExecute_eq diffFn st w (some t) h₁ h₂]
    rfl

def devC8 : Nat → String → List String := fun _ _ => []

theorem C8_batch_framing_witness :
    buildBatchCmd none "set a 2" =
      "execute batch start\n" ++ "set a 2" ++ "\nexecute batch end\n" ∧
    (containsSubstr "vd1" "global" = true →
      buildBatchCmd (some "vd1") "set a 2" =
        "conf global\n    execute batch start\n" ++ "set a 2" ++ "\nexecute batch end\n") ∧
    (containsSubstr "vd1" "global" = false →
      buildBatchCmd (some "vd1") "set a 2" =
        "conf global\n    execute batch start\nconf vdom\n  edit " ++ "vd1" ++ "\n"
          ++ "set a 2" ++ "\nexecute batch end\n") ∧
    scopePre none = "" ∧
    scopePre (some "vd1") = "conf global\n    " ∧
    lastlogCmd st0.vdom = scopePre st0.vdom ++ "execute batch lastlog" ∧
    (commitExecute diffTriv st0 (mkWorld devC8) (some "set a 2")).1.trace =
      (mkWorld devC8).trace ++ [Event.batch (buildBatchCmd st0.vdom "set a 2"),
        Event.exec (buildBatchCmd st0.vdom "set a 2")
          ((mkWorld devC8).dev (mkWorld devC8).step (buildBatchCmd st0.vdom "set a 2")),
        Event.exec (lastlogCmd st0.vdom)
          ((mkWorld devC8).dev ((mkWorld devC8).step + 1) (lastlogCmd st0.vdom))] :=
  C8_batch_framing "vd1" "set a 2" diffTriv st0 (mkWorld devC8) (by decide) (by decide)

/-- C8 counterexample: for the named vdom `xglobal` — a vdom other than
the global one — the code emits the `conf global` framing (the substring
test `'global' in vdom` fires), not the claimed `conf vdom/edit xglobal`
framing. -/
theorem C8_substring_counterexample :
    buildBatchCmd (some "xglobal") "set a 1" ≠
      "conf global\n    execute batch start\nconf vdom\n  edit xglobal\nset a 1\nexecute batch end\n" := by
  decide

/-! ## Retry-text pinning (C9) -/

theorem execute_command_fst_trace (w : World) (c : String) :
    (execute_command w c).1.trace = w.trace ++ [Event.exec c (w.dev w.step c)] := by
  simp only [execute_command]
  split <;> rfl

theorem loadPaths_quiet :
    ∀ (paths : List String) (st : FortiOSState) (w : World),
      ∃ es, (loadPaths st w paths).2.1.trace = w.trace ++ es ∧
        ∀ e ∈ es, isBatch e = false := by
  intro paths
  induction paths with
  | nil => intro st w; exact ⟨[], by simp [loadPaths], by intro e he; simp at he⟩
  | cons p rest ih =>
    intro st w
    rcases h : load_config st w p false true none with ⟨st₁, w₁, r₁⟩
    have ht₁ : w₁.trace = w.trace ++
        [Event.exec (showCommand st.vdom p) (w.dev w.step (showCommand st.vdom p))] := by
      have hlc : (load_config st w p false true none).2.1.trace = w.trace ++
          [Event.exec (showCommand st.vdom p) (w.dev w.step (showCommand st.vdom p))] := by
        rcases hec : execute_command w (showCommand st.vdom p) with ⟨we, re⟩
        have htw : we.trace = w.trace ++
            [Event.exec (showCommand st.vdom p) (w.dev w.step (showCommand st.vdom p))] := by
          have := execute_command_fst_trace w (showCommand st.vdom p)
          rw [hec] at this
          exact this
        cases re <;> simp [load_config, hec, htw]
      rw [h] at hlc
      exact hlc
    cases r₁ with
    | ok u =>
      obtain ⟨es, htr, hq⟩ := ih st₁ w₁
      refine ⟨Event.exec (showCommand st.vdom p) (w.dev w.step (showCommand st.vdom p)) :: es,
        ?_, ?_⟩
      · have : loadPaths st w (p :: rest) = loadPaths st₁ w₁ rest := by simp [loadPaths, h]
        rw [this, htr, ht₁]
        simp
      · intro e he
        rcases List.mem_cons.mp he with h1 | h1
        · subst h1; rfl
        · exact hq e h1
    | error e =>
      refine ⟨[Event.exec (showCommand st.vdom p) (w.dev w.step (showCommand st.vdom p))],
        ?_, ?_⟩
      · have : loadPaths st w (p :: rest) = (st₁, w₁, Except.error e) := by
          simp [loadPaths, h]
        rw [this]
        exact ht₁
      · intro e' he'
        rcases List.mem_cons.mp he' with h1 | h1
        · subst h1; rfl
        · simp at h1

theorem reload_config_quiet (st : FortiOSState) (w : World) (b : Bool) :
    ∃ es, (reload_config st w b).2.1.trace = w.trace ++ es ∧
      ∀ e ∈ es, isBatch e = false := by
  cases b with
  | false => exact loadPaths_quiet _ _ _
  | true => exact loadPaths_quiet _ _ _

theorem commitExecute_norm (diffFn : DiffFn) (st : FortiOSState) (w : World)
    (ct : Option String) :
    commitExecute diffFn st w ct =
      commitExecute diffFn st w (some (ct.getD (compare_config diffFn st none))) := by
  cases ct <;> rfl

theorem commitExecute_batch_trace_some (diffFn : DiffFn) (st : FortiOSState) (w : World)
    (t : String) :
    ∃ es, (commitExecute diffFn st w (some t)).1.trace =
      w.trace ++ Event.batch (buildBatchCmd st.vdom t) :: es ∧
      ∀ e ∈ es, isBatch e = false := by
  have hc : commitExecute diffFn st w (some t) =
      (match execute_command
          { w with trace := w.trace ++ [Event.batch (buildBatchCmd st.vdom t)] }
          (buildBatchCmd st.vdom t) with
       | (w, Except.error e) => (w, Except.error e)
       | (w, Except.ok _) =>
         match execute_command w (lastlogCmd st.vdom) with
         | (w, Except.error e) => (w, Except.error e)
         | (w, Except.ok last_log) => (w, Except.ok (FortiOS_parse_batch_lastlog last_log))) :=
    rfl
  rcases h1 : execute_command
      { w with trace := w.trace ++ [Event.batch (buildBatchCmd st.vdom t)] }
      (buildBatchCmd st.vdom t) with ⟨w₁, r₁⟩
  have ht1 : w₁.trace = w.trace ++ [Event.batch (buildBatchCmd st.vdom t),
      Event.exec (buildBatchCmd st.vdom t) (w.dev w.step (buildBatchCmd st.vdom t))] := by
    have := execute_command_fst_trace
      { w with trace := w.trace ++ [Event.batch (buildBatchCmd st.vdom t)] }
      (buildBatchCmd st.vdom t)
    rw [h1] at this
    simpa using this
  rw [hc, h1]
  cases r₁ with
  | error e =>
    refine ⟨[Event.exec (buildBatchCmd st.vdom t) (w.dev w.step (buildBatchCmd st.vdom t))],
      by simpa using ht1, ?_⟩
    intro e' he'
    rcases List.mem_cons.mp he' with h2 | h2
    · subst h2; rfl
    · simp at h2
  | ok out =>
    dsimp only
    rcases h2 : execute_command w₁ (lastlogCmd st.vdom) with ⟨w₂, r₂⟩
    have ht2 : w₂.trace = w₁.trace ++ [Event.exec (lastlogCmd st.vdom)
        (w₁.dev w₁.step (lastlogCmd st.vdom))] := by
      have := execute_command_fst_trace w₁ (lastlogCmd st.vdom)
      rw [h2] at this
      exact this
    have hcomb : w₂.trace = w.trace ++ Event.batch (buildBatchCmd st.vdom t) ::
        [Event.exec (buildBatchCmd st.vdom t) (w.dev w.step (buildBatchCmd st.vdom t)),
         Event.exec (lastlogCmd st.vdom) (w₁.dev w₁.step (lastlogCmd st.vdom))] := by
      rw [ht2, ht1]
      simp
    cases r₂ with
    | error e =>
      refine ⟨[Event.exec (buildBatchCmd st.vdom t) (w.dev w.step (buildBatchCmd st.vdom t)),
        Event.exec (lastlogCmd st.vdom) (w₁.dev w₁.step (lastlogCmd st.vdom))],
        by simpa using hcomb, ?_⟩
      intro e' he'
      rcases List.mem_cons.mp he' with h3 | h3
      · subst h3; rfl
      · rcases List.mem_cons.mp h3 with h4 | h4
        · subst h4; rfl
        · simp at h4
    | ok ll =>
      refine ⟨[Event.exec (buildBatchCmd st.vdom t) (w.dev w.step (buildBatchCmd st.vdom t)),
        Event.exec (lastlogCmd st.vdom) (w₁.dev w₁.step (lastlogCmd st.vdom))],
        by simpa using hcomb, ?_⟩
      intro e' he'
      rcases List.mem_cons.mp he' with h3 | h3
      · subst h3; rfl
      · rcases List.mem_cons.mp h3 with h4 | h4
        · subst h4; rfl
        · simp at h4

theorem retryLoop_pinned (diffFn : DiffFn) (vd : Option String) (t : String) :
    ∀ (n : Nat) (wcs : List (Int × String)) (st : FortiOSState) (w : World),
      st.vdom = vd →
      ∃ es, (retryLoop diffFn n (some t) wcs st w).2.2.2.1.trace = w.trace ++ es ∧
        ∀ e ∈ es, isBatch e = true → e = Event.batch (buildBatchCmd vd t) := by
  intro n
  induction n with
  | zero =>
    intro wcs st w hv
    exact ⟨[], by simp [retryLoop_zero], by intro e he; simp at he⟩
  | succ m ih =>
    intro wcs st w hv
    by_cases hr : hasRetryable wcs = true
    · rw [retryLoop_succ, if_pos hr]
      show ∃ es, ((match commitExecute diffFn st w (some t) with
        | (w, Except.error e) => ((some t : Option String), wcs, st, w, Except.error e)
        | (w, Except.ok wcs) =>
          match reload_config st w false with
          | (st, w, Except.ok _) => retryLoop diffFn m (some t) wcs st w
          | (st, w, Except.error e) =>
            ((some t : Option String), wcs, st, w, Except.error e)).2.2.2.1.trace)
        = w.trace ++ es ∧
        ∀ e ∈ es, isBatch e = true → e = Event.batch (buildBatchCmd vd t)
      rcases hce : commitExecute diffFn st w (some t) with ⟨w₁, r₁⟩
      obtain ⟨es₁, htr₁, hq₁⟩ := commitExecute_batch_trace_some diffFn st w t
      rw [hce] at htr₁
      rw [hv] at htr₁
      cases r₁ with
      | error e =>
        refine ⟨Event.batch (buildBatchCmd vd t) :: es₁, htr₁, ?_⟩
        intro e' he' hb
        rcases List.mem_cons.mp he' with h2 | h2
        · exact h2
        · rw [hq₁ e' h2] at hb; exact absurd hb (by simp)
      | ok wcs₁ =>
        dsimp only
        rcases hrl : reload_config st w₁ false with ⟨st₂, w₂, r₂⟩
        obtain ⟨es₂, htr₂, hq₂⟩ := reload_config_quiet st w₁ false
        rw [hrl] at htr₂
        have hv₂ : st₂.vdom = vd := by
          have := reload_config_preserves st w₁ false
          rw [hrl] at this
          exact this.1.trans hv
        cases r₂ with
        | error e =>
          refine ⟨Event.batch (buildBatchCmd vd t) :: es₁ ++ es₂, ?_, ?_⟩
          · rw [htr₂, htr₁]; simp
          · intro e' he' hb
            rcases List.mem_append.mp he' with h2 | h2
            · rcases List.mem_cons.mp h2 with h3 | h3
              · exact h3
              · rw [hq₁ e' h3] at hb; exact absurd hb (by simp)
            · rw [hq₂ e' h2] at hb; exact absurd hb (by simp)
        | ok u =>
          obtain ⟨es₃, htr₃, hq₃⟩ := ih wcs₁ st₂ w₂ hv₂
          refine ⟨Event.batch (buildBatchCmd vd t) :: es₁ ++ es₂ ++ es₃, ?_, ?_⟩
          · rw [htr₃, htr₂, htr₁]; simp
          · intro e' he' hb
            rcases List.mem_append.mp he' with h2 | h2
            · rcases List.mem_append.mp h2 with h3 | h3
              · rcases List.mem_cons.mp h3 with h4 | h4
                · exact h4
                · rw [hq₁ e' h4] at hb; exact absurd hb (by simp)
              · rw [hq₂ e' h3] at hb; exact absurd hb (by simp)
            · exact hq₃ e' h2 hb
    · rw [retryLoop_succ, if_neg (by simp [hr])]
      exact ih wcs st w hv

/-- C9 (amended): when the caller supplied no explicit config text, the
FIRST retry recomputes the change text as the diff between the (freshly
reloaded) running config at loop entry and the candidate config, assigns
it, and that assignment pins the text: every batch execution performed by
the retry loop — including all later retries — uses exactly that once
recomputed text; only the first retry recomputes, later retries do not.
(A caller-supplied explicit text is the `some` case handled by
`retryLoop_pinned`.) -/
theorem C9_text_pinned_at_first_retry (diffFn : DiffFn) (n : Nat)
    (wcs : List (Int × String)) (st : FortiOSState) (w : World) :
    ∃ es, (retryLoop diffFn n none wcs st w).2.2.2.1.trace = w.trace ++ es ∧
      ∀ e ∈ es, isBatch e = true →
        e = Event.batch (buildBatchCmd st.vdom (compare_config diffFn st none)) := by
  cases n with
  | zero => exact ⟨[], by simp [retryLoop_zero], by intro e he; simp at he⟩
  | succ m =>
    by_cases hr : hasRetryable wcs = true
    · have hstep : retryLoop diffFn (m + 1) none wcs st w =
          retryLoop diffFn (m + 1) (some (compare_config diffFn st none)) wcs st w := by
        rw [retryLoop_succ, retryLoop_succ, if_pos hr, if_pos hr]
      rw [hstep]
      exact retryLoop_pinned diffFn st.vdom (compare_config diffFn st none) (m + 1)
        wcs st w rfl
    · have hr' : hasRetryable wcs = false := by
        cases h : hasRetryable wcs
        · rfl
        · exact absurd h hr
      rw [retryLoop_noRetry diffFn wcs hr' (m + 1) none st w]
      exact ⟨[], by simp, by intro e he; simp at he⟩

theorem C9_text_pinned_at_first_retry_witness :
    ∃ es, (retryLoop diffTriv 5 none [(-3, "x")] st0 (mkWorld devAllRetry)).2.2.2.1.trace =
      (mkWorld devAllRetry).trace ++ es ∧
      ∀ e ∈ es, isBatch e = true →
        e = Event.batch (buildBatchCmd st0.vdom (compare_config diffTriv st0 none)) :=
  C9_text_pinned_at_first_retry diffTriv 5 [(-3, "x")] st0 (mkWorld devAllRetry)

/-- Batch scripts sent to the device, extracted from the trace in order. -/
def batchCmds (tr : List Event) : List String :=
  tr.filterMap (fun e => match e with
    | Event.batch c => some c
    | _ => none)

/-- Device oracle for the C9 counterexample: the first attempt fails with
a retryable `-3`, the first reload reads running config `A`, the second
attempt (first retry) fails again with `-3`, the next reload reads `B`,
and the third attempt (second retry) succeeds. -/
def dev9 : Nat → String → List String := fun n _ =>
  if n = 1 then ["-3: x"]
  else if n = 2 then ["A"]
  else if n = 4 then ["-3: x"]
  else if n = 5 then ["B"]
  else if n = 7 then ["0: done"]
  else []

/-- Diff model for the C9 counterexample: render the source (running) tree. -/
def diff9 : DiffFn := fun run _ => String.join run

/-- Session state for the C9 counterexample: one loaded path `p`. -/
def st9 : FortiOSState :=
  { vdom := none
    original_config := none
    running_config := { name := "running", vdom := none, tree := [], paths := ["p"] }
    candidate_config := FortiConfig.mkEmpty "candidate" none }

/-- C9 counterexample: in this concrete run the second retry re-sends the
batch built from the text `A` computed at the FIRST retry, although the
running config freshly reloaded before the second retry is `["B"]`, whose
diff against the candidate is `"B"` — so the claimed per-retry
recomputation would have produced the `B` batch instead. -/
theorem C9_stale_text_counterexample :
    batchCmds (FortiOS_commit diff9 none false st9 (mkWorld dev9)).2.1.trace =
      [buildBatchCmd none "", buildBatchCmd none "A", buildBatchCmd none "A"] ∧
    dev9 5 (showCommand none "p") = ["B"] ∧
    diff9 ["B"] st9.candidate_config.tree = "B" ∧
    buildBatchCmd none "A" ≠ buildBatchCmd none "B" := by
  refine ⟨by rfl, by rfl, by rfl, by decide⟩
